import Mathlib

namespace JunoCleanup


/-- A generic YAML-like attribute tree, the value domain produced by the
manifest parser (`yaml.safe_load`): the Python value `None` is `null`,
booleans, integers, strings, sequences and string-keyed mappings. -/
inductive Tree where
  | null : Tree
  | bool (b : Bool) : Tree
  | int (n : Int) : Tree
  | str (s : String) : Tree
  | list (xs : List Tree) : Tree
  | dict (kvs : List (String × Tree)) : Tree
deriving Repr

mutual

/-- Decidable structural equality on trees (Python `==` on parsed YAML values). -/
def Tree.decEq : (a b : Tree) → Decidable (a = b)
  | .null, .null => .isTrue rfl
  | .null, .bool _ => .isFalse nofun
  | .null, .int _ => .isFalse nofun
  | .null, .str _ => .isFalse nofun
  | .null, .list _ => .isFalse nofun
  | .null, .dict _ => .isFalse nofun
  | .bool _, .null => .isFalse nofun
  | .bool a, .bool b =>
    if h : a = b then .isTrue (by rw [h]) else .isFalse (by simp [h])
  | .bool _, .int _ => .isFalse nofun
  | .bool _, .str _ => .isFalse nofun
  | .bool _, .list _ => .isFalse nofun
  | .bool _, .dict _ => .isFalse nofun
  | .int _, .null => .isFalse nofun
  | .int _, .bool _ => .isFalse nofun
  | .int a, .int b =>
    if h : a = b then .isTrue (by rw [h]) else .isFalse (by simp [h])
  | .int _, .str _ => .isFalse nofun
  | .int _, .list _ => .isFalse nofun
  | .int _, .dict _ => .isFalse nofun
  | .str _, .null => .isFalse nofun
  | .str _, .bool _ => .isFalse nofun
  | .str _, .int _ => .isFalse nofun
  | .str a, .str b =>
    if h : a = b then .isTrue (by rw [h]) else .isFalse (by simp [h])
  | .str _, .list _ => .isFalse nofun
  | .str _, .dict _ => .isFalse nofun
  | .list _, .null => .isFalse nofun
  | .list _, .bool _ => .isFalse nofun
  | .list _, .int _ => .isFalse nofun
  | .list _, .str _ => .isFalse nofun
  | .list xs, .list ys =>
    match Tree.decEqList xs ys with
    | .isTrue h => .isTrue (by rw [h])
    | .isFalse h => .isFalse (fun e => h (by cases e; rfl))
  | .list _, .dict _ => .isFalse nofun
  | .dict _, .null => .isFalse nofun
  | .dict _, .bool _ => .isFalse nofun
  | .dict _, .int _ => .isFalse nofun
  | .dict _, .str _ => .isFalse nofun
  | .dict _, .list _ => .isFalse nofun
  | .dict xs, .dict ys =>
    match Tree.decEqDict xs ys with
    | .isTrue h => .isTrue (by rw [h])
    | .isFalse h => .isFalse (fun e => h (by cases e; rfl))
termination_by structural a => a

/-- Decidable equality of tree lists. -/
def Tree.decEqList : (xs ys : List Tree) → Decidable (xs = ys)
  | [], [] => .isTrue rfl
  | [], _ :: _ => .isFalse nofun
  | _ :: _, [] => .isFalse nofun
  | x :: xs, y :: ys =>
    match Tree.decEq x y, Tree.decEqList xs ys with
    | .isTrue h1, .isTrue h2 => .isTrue (by rw [h1, h2])
    | .isFalse h1, _ => .isFalse (fun e => h1 (by cases e; rfl))
    | _, .isFalse h2 => .isFalse (fun e => h2 (by cases e; rfl))
termination_by structural xs => xs

/-- Decidable equality of key/value lists. -/
def Tree.decEqDict : (xs ys : List (String × Tree)) → Decidable (xs = ys)
  | [], [] => .isTrue rfl
  | [], _ :: _ => .isFalse nofun
  | _ :: _, [] => .isFalse nofun
  | (k, x) :: xs, (l, y) :: ys =>
    match String.decEq k l, Tree.decEq x y, Tree.decEqDict xs ys with
    | .isTrue h0, .isTrue h1, .isTrue h2 => .isTrue (by rw [h0, h1, h2])
    | .isFalse h0, _, _ => .isFalse (fun e => h0 (by cases e; rfl))
    | _, .isFalse h1, _ => .isFalse (fun e => h1 (by cases e; rfl))
    | _, _, .isFalse h2 => .isFalse (fun e => h2 (by cases e; rfl))
termination_by structural xs => xs

end


instance : DecidableEq Tree := Tree.decEq

/-- Python truthiness of a tree value (`if config:`, `if container_name:`):
`None`, `False`, `0`, `""`, `[]` and `{}` are falsy, everything else truthy. -/
def Tree.truthy : Tree → Bool
  | .null => false
  | .bool b => b
  | .int n => n != 0
  | .str s => s != ""
  | .list xs => !xs.isEmpty
  | .dict kvs => !kvs.isEmpty

/-- Whether a tree value is a mapping (`isinstance(x, dict)`). -/
def Tree.isDict : Tree → Bool
  | .dict _ => true
  | _ => false

/-- Python exceptions that the embedded code can raise or swallow. -/
inductive PyErr where
  | attributeError : PyErr
  | typeError : PyErr
  | calledProcessError (code : Int) : PyErr
  | ioError : PyErr
  | yamlError : PyErr
deriving DecidableEq, Repr

/-- `kvs`-lookup for `d.get(key, default)` on a parsed mapping. -/
def lookupD (kvs : List (String × Tree)) (k : String) (default : Tree) : Tree :=
  match kvs.find? (fun kv => kv.1 = k) with
  | some kv => kv.2
  | none => default

/-! ## ComposeResourceExtractor

The extractor mutates one shared set per resource kind plus two shadow
provenance sets.  Following the spec's data model, the union set and the
two shadow sets of one kind are grouped in a `KindSets` record:
`containers.all` embeds `self.containers`, `containers.independent` embeds
`self.containers_independent`, and `containers.merged` embeds
`self.containers_merged` (same for images, volumes, networks).
Identifiers are arbitrary tree values.  Python's `set.add` stores any
hashable truthy value and raises `TypeError` on an unhashable one;
`insertNew` models only the successful path, and the raising path is
re-embedded separately by `insertNewH` and the `H` variants further down,
where the raising behaviour itself is at issue. -/

/-- Extraction provenance, the `source` argument of `_extract_from_config`. -/
inductive Source where
  | independent : Source
  | merged : Source
deriving DecidableEq, Repr

/-- Python `set.add`, successful path only: insert unless already present.
The list stays duplicate-free; we keep first-insertion order.  The
`TypeError` that `set.add` raises on an unhashable argument is elided here
and modelled by `insertNewH`. -/
def insertNew (l : List Tree) (x : Tree) : List Tree :=
  if x ∈ l then l else l ++ [x]

/-- One resource kind's union set plus its two provenance shadow sets. -/
structure KindSets where
  all : List Tree := []
  independent : List Tree := []
  merged : List Tree := []
deriving DecidableEq, Repr

/-- The paired adds of `_extract_from_config`: `self.<kind>.add(x)` followed by
`if source == "independent": self.<kind>_independent.add(x) else:
self.<kind>_merged.add(x)`. -/
def KindSets.record (k : KindSets) (src : Source) (x : Tree) : KindSets :=
  if src = .independent then
    { k with all := insertNew k.all x, independent := insertNew k.independent x }
  else
    { k with all := insertNew k.all x, merged := insertNew k.merged x }

/-- The accumulated sets of a `ComposeResourceExtractor`. -/
structure ExtractorState where
  containers : KindSets := {}
  images : KindSets := {}
  volumes : KindSets := {}
  networks : KindSets := {}
deriving DecidableEq, Repr

/-- The freshly initialised extractor: all eight sets empty. -/
def initExtractor : ExtractorState := {}

/-- The fixed `project_names` list set in `ComposeResourceExtractor.__init__`. -/
def project_names : List String := ["juno", "helios"]

/-- The `build`/`cache_from` part of the per-service loop:
`build_config = service_config.get("build", {})`, guarded by
`isinstance(build_config, dict)`; then `cache_from =
build_config.get("cache_from", [])`, guarded by `isinstance(cache_from, list)`;
each truthy entry is recorded as an image. -/
def recordCacheFrom (st : ExtractorState) (src : Source)
    (skvs : List (String × Tree)) : ExtractorState :=
  match lookupD skvs "build" (.dict []) with
  | .dict bkvs =>
    match lookupD bkvs "cache_from" (.list []) with
    | .list imgs =>
      imgs.foldl
        (fun st img =>
          if img.truthy then { st with images := st.images.record src img } else st)
        st
    | _ => st
  | _ => st

/-- The body of the per-service loop of `_extract_from_config`: a service whose
config is not a mapping is skipped; otherwise its truthy `container_name` and
`image` values and its build cache sources are recorded. -/
def processService (st : ExtractorState) (src : Source) (sc : Tree) : ExtractorState :=
  match sc with
  | .dict skvs =>
    let cn := lookupD skvs "container_name" .null
    let st := if cn.truthy then { st with containers := st.containers.record src cn } else st
    let im := lookupD skvs "image" .null
    let st := if im.truthy then { st with images := st.images.record src im } else st
    recordCacheFrom st src skvs
  | _ => st

/-- The top-level `volumes` section: `volumes = config.get("volumes", {})`,
guarded by `isinstance(volumes, dict)`; every key name is recorded. -/
def extractVolumesSection (st : ExtractorState) (src : Source) (v : Tree) : ExtractorState :=
  match v with
  | .dict kvs =>
    kvs.foldl (fun st kv => { st with volumes := st.volumes.record src (.str kv.1) }) st
  | _ => st

/-- The top-level `networks` section, shaped like the `volumes` section. -/
def extractNetworksSection (st : ExtractorState) (src : Source) (v : Tree) : ExtractorState :=
  match v with
  | .dict kvs =>
    kvs.foldl (fun st kv => { st with networks := st.networks.record src (.str kv.1) }) st
  | _ => st

/-- `_extract_from_config(config, source)`.  Python mutates the extractor in
place and raises `AttributeError` when `config` is not a mapping
(`config.get`) or when its `services` value is neither absent nor a mapping
(`services.items()`); the pair returns the state as mutated so far together
with the raised error, if any.  This embedding elides the `TypeError` that
`set.add` raises on a truthy unhashable identifier; the variant
`_extract_from_config_h` models that path too. -/
def _extract_from_config (st : ExtractorState) (config : Tree) (src : Source) :
    ExtractorState × Option PyErr :=
  match config with
  | .dict ckvs =>
    match lookupD ckvs "services" (.dict []) with
    | .dict skvs =>
      let st := skvs.foldl (fun st kv => processService st src kv.2) st
      let st := extractVolumesSection st src (lookupD ckvs "volumes" (.dict []))
      let st := extractNetworksSection st src (lookupD ckvs "networks" (.dict []))
      (st, none)
    | _ => (st, some .attributeError)
  | _ => (st, some .attributeError)

/-- `extract_all()`: run `_extract_from_config(config, "independent")` over
`[self.base_config, self.runtime_config]`, skipping falsy configs; a raised
exception propagates, so a failure in the base config stops before the
runtime config. -/
def extract_all (st : ExtractorState) (base runtime : Tree) :
    ExtractorState × Option PyErr :=
  if base.truthy then
    match _extract_from_config st base .independent with
    | (st', none) =>
      if runtime.truthy then _extract_from_config st' runtime .independent
      else (st', none)
    | e => e
  else if runtime.truthy then _extract_from_config st runtime .independent
  else (st, none)

/-- `extract_from_merged(merged_config)`. -/
def extract_from_merged (st : ExtractorState) (cfg : Tree) :
    ExtractorState × Option PyErr :=
  _extract_from_config st cfg .merged

/-- One extraction call, for quantifying over arbitrary call sequences. -/
inductive ExtractCall where
  | all (base runtime : Tree) : ExtractCall
  | merged (cfg : Tree) : ExtractCall

/-- Apply one extraction call, keeping whatever state the call reached. -/
def applyCall (st : ExtractorState) (c : ExtractCall) : ExtractorState :=
  match c with
  | .all b r => (extract_all st b r).1
  | .merged t => (extract_from_merged st t).1

/-- Apply a sequence of extraction calls to an extractor state. -/
def applyCalls (st : ExtractorState) (cs : List ExtractCall) : ExtractorState :=
  cs.foldl applyCall st

/-! ## Character-level string operations

The embedded code manipulates strings through `strip`, `upper`, `lower`,
`endswith`, slicing and `split`.  These are implemented here over character
lists by structural recursion, so that concrete runs of the embedding
evaluate inside the kernel. -/

/-- The whitespace characters Python's `str.strip` removes. -/
def isSpaceChar (c : Char) : Bool :=
  c == ' ' || c == '\t' || c == '\n' || c == '\r' || c == '\x0b' || c == '\x0c'

/-- `s.strip()`. -/
def strTrim (s : String) : String :=
  ⟨((s.data.dropWhile isSpaceChar).reverse.dropWhile isSpaceChar).reverse⟩

/-- ASCII upper-casing of one character (every string in scope is ASCII). -/
def charUpper (c : Char) : Char :=
  if 'a' ≤ c ∧ c ≤ 'z' then Char.ofNat (c.toNat - 32) else c

/-- ASCII lower-casing of one character. -/
def charLower (c : Char) : Char :=
  if 'A' ≤ c ∧ c ≤ 'Z' then Char.ofNat (c.toNat + 32) else c

/-- `s.upper()`. -/
def strUpper (s : String) : String := ⟨s.data.map charUpper⟩

/-- `s.lower()`. -/
def strLower (s : String) : String := ⟨s.data.map charLower⟩

/-- `s.endswith(post)`. -/
def strEndsWith (s post : String) : Bool := post.data.isSuffixOf s.data

/-- `s[:-n]` for positive `n`: drop the last `n` characters. -/
def strDropRight (s : String) (n : Nat) : String :=
  ⟨(s.data.reverse.drop n).reverse⟩

/-- Worker for `s.split(sep)`: each step consumes at least one character, so
a fuel exceeding the string length runs it to completion. -/
def splitOnGo (sep : List Char) : Nat → List Char → List Char → List (List Char)
  | 0, cs, acc => [acc.reverse ++ cs]
  | fuel + 1, cs, acc =>
    match cs with
    | [] => [acc.reverse]
    | c :: rest =>
      if sep.isPrefixOf (c :: rest) then
        acc.reverse :: splitOnGo sep fuel ((c :: rest).drop sep.length) []
      else splitOnGo sep fuel rest (c :: acc)

/-- Python `s.split(sep)` for a non-empty separator. -/
def strSplitOn (s sep : String) : List String :=
  (splitOnGo sep.data (s.data.length + 1) s.data []).map (fun cs => (⟨cs⟩ : String))

/-! ## Size strings

Python floats are modelled by exact fractions (`PyFloat`): every size value
in scope has an exact binary-float representation and every operation on it
is exact, so exact fractions and floats agree on them.  Fractions are kept
unnormalised with a positive denominator; `PyFloat.toRat` interprets them as
rationals for the specification-level statements. -/

/-- An exact fraction standing in for a Python float.  Every constructor and
operation below keeps `den` positive. -/
structure PyFloat where
  num : Int
  den : Int
deriving DecidableEq, Repr

instance (n : Nat) : OfNat PyFloat n := ⟨⟨n, 1⟩⟩

/-- The rational value of a fraction. -/
def PyFloat.toRat (a : PyFloat) : ℚ := (a.num : ℚ) / (a.den : ℚ)

/-- Exact product. -/
def PyFloat.mul (a b : PyFloat) : PyFloat := ⟨a.num * b.num, a.den * b.den⟩

/-- Exact sum. -/
def PyFloat.add (a b : PyFloat) : PyFloat :=
  ⟨a.num * b.den + b.num * a.den, a.den * b.den⟩

/-- Exact difference. -/
def PyFloat.sub (a b : PyFloat) : PyFloat :=
  ⟨a.num * b.den - b.num * a.den, a.den * b.den⟩

/-- Exact quotient; every divisor in scope is positive. -/
def PyFloat.div (a b : PyFloat) : PyFloat := ⟨a.num * b.den, a.den * b.num⟩

/-- Value order on fractions (cross-multiplied; denominators are positive). -/
instance : LE PyFloat := ⟨fun a b => a.num * b.den ≤ b.num * a.den⟩

instance : LT PyFloat := ⟨fun a b => a.num * b.den < b.num * a.den⟩

instance (a b : PyFloat) : Decidable (a ≤ b) :=
  inferInstanceAs (Decidable (a.num * b.den ≤ b.num * a.den))

instance (a b : PyFloat) : Decidable (a < b) :=
  inferInstanceAs (Decidable (a.num * b.den < b.num * a.den))

/-- Value equality on fractions (Python `==` on floats). -/
def PyFloat.eqv (a b : PyFloat) : Prop := a.num * b.den = b.num * a.den

instance (a b : PyFloat) : Decidable (a.eqv b) :=
  inferInstanceAs (Decidable (a.num * b.den = b.num * a.den))

/-- Floor of a fraction (the denominator is positive). -/
def PyFloat.floor (a : PyFloat) : Int := a.num.fdiv a.den

/-- Multiply by `10^e` for a possibly negative `e`. -/
def PyFloat.mulPow10 (a : PyFloat) (e : Int) : PyFloat :=
  if 0 ≤ e then a.mul ⟨(10 : Int) ^ e.toNat, 1⟩ else a.div ⟨(10 : Int) ^ (-e).toNat, 1⟩

/-- Value of a list of decimal digit characters. -/
def digitsVal (cs : List Char) : Nat :=
  cs.foldl (fun a c => 10 * a + (c.toNat - 48)) 0

/-- Whether every character is a decimal digit. -/
def allDigits (cs : List Char) : Bool := cs.all (fun c => c.isDigit)

/-- A model of Python `float(s)` on decimal literals: optional surrounding
whitespace and sign, digits around an optional point, optional decimal
exponent; `none` where `float` raises `ValueError`.  (Underscored literals
and the non-finite spellings `inf`/`nan` have no fraction counterpart and
are out of scope; no daemon size string uses them.) -/
def pyFloat? (s : String) : Option PyFloat :=
  let cs := (strTrim s).data
  let (sgn, cs) :=
    match cs with
    | '+' :: rest => ((⟨1, 1⟩ : PyFloat), rest)
    | '-' :: rest => ((⟨-1, 1⟩ : PyFloat), rest)
    | _ => ((⟨1, 1⟩ : PyFloat), cs)
  let (mant, erest) := cs.span (fun c => !(c == 'e' || c == 'E'))
  let expVal : Option Int :=
    match erest with
    | [] => some 0
    | _ :: etail =>
      let (esgn, ed) :=
        match etail with
        | '+' :: r => ((1 : Int), r)
        | '-' :: r => ((-1 : Int), r)
        | _ => ((1 : Int), etail)
      if ed ≠ [] ∧ allDigits ed then some (esgn * (digitsVal ed : Int)) else none
  let mantVal : Option PyFloat :=
    let (ip, rest) := mant.span (fun c => c != '.')
    match rest with
    | [] => if ip ≠ [] ∧ allDigits ip then some ⟨digitsVal ip, 1⟩ else none
    | _ :: fp =>
      if (ip ≠ [] ∨ fp ≠ []) ∧ allDigits ip ∧ allDigits fp then
        some ((⟨digitsVal ip, 1⟩ : PyFloat).add
          ((⟨digitsVal fp, 1⟩ : PyFloat).div ⟨(10 : Int) ^ fp.length, 1⟩))
      else none
  match mantVal, expVal with
  | some m, some e => some ((sgn.mul m).mulPow10 e)
  | _, _ => none

/-- The unit table of `parse_size_string`, longer units first. -/
def multipliers : List (String × PyFloat) :=
  [("TB", ⟨(1024 : Int) ^ 4, 1⟩), ("GB", ⟨(1024 : Int) ^ 3, 1⟩),
   ("MB", ⟨(1024 : Int) ^ 2, 1⟩), ("KB", ⟨1024, 1⟩), ("B", ⟨1, 1⟩)]

/-- `parse_size_string`: convert a daemon size string such as `"1.5GB"` to
bytes; empty or `"0B"` short-circuit to zero, an unrecognised suffix or an
unparseable number yields zero. -/
def parse_size_string (size_str : String) : PyFloat :=
  if size_str = "" ∨ size_str = "0B" then 0
  else
    let s := strUpper (strTrim size_str)
    match multipliers.find? (fun um => strEndsWith s um.1) with
    | some um =>
      match pyFloat? (strDropRight s um.1.data.length) with
      | some v => v.mul um.2
      | none => 0
    | none => 0

/-- Round half to even, the rounding Python's fixed-point formatting applies
to the exact value. -/
def roundHalfEven (q : PyFloat) : Int :=
  let f := q.floor
  let r := q.sub ⟨f, 1⟩
  if r < ⟨1, 2⟩ then f
  else if (⟨1, 2⟩ : PyFloat) < r then f + 1
  else if f % 2 = 0 then f else f + 1

/-- Python `f"{value:.2f}"` on an exact value. -/
def formatFixed2 (q : PyFloat) : String :=
  let n := roundHalfEven (q.mul 100)
  let sign := if n < 0 then "-" else ""
  let m := n.natAbs
  sign ++ toString (m / 100) ++ "." ++
    (if m % 100 < 10 then "0" ++ toString (m % 100) else toString (m % 100))

/-- The unit ladder of `format_bytes`. -/
def fbUnits : List String := ["B", "KB", "MB", "GB", "TB"]

/-- The `while value >= 1024 and unit_index < len(units) - 1` loop of
`format_bytes`.  The index strictly increases towards the bound 4, so a fuel
of 4 runs the loop to completion from index 0. -/
def fbLoop (fuel : Nat) (value : PyFloat) (idx : Nat) : PyFloat × Nat :=
  match fuel with
  | 0 => (value, idx)
  | fuel + 1 =>
    if (1024 : PyFloat) ≤ value ∧ idx < 4 then fbLoop fuel (value.div 1024) (idx + 1)
    else (value, idx)

/-- `format_bytes`: format a byte count with two decimals at the largest
1024-base unit keeping the value below 1024. -/
def format_bytes (bytes_value : PyFloat) : String :=
  if bytes_value.eqv 0 then "0B"
  else
    let vi := fbLoop 4 bytes_value 0
    formatFixed2 vi.1 ++ fbUnits.getD vi.2 "B"

/-! ## Daemon model

The orchestration daemon is an external collaborator; its observable state
and the effect of each CLI call are modelled from the spec (§6): removal
calls remove the named resource when present and fail with a nonzero exit
when it is absent (`docker rm` additionally requires the container to be
stopped), `docker compose down` tears down the resources labelled with the
given project, `docker image prune` removes only dangling (untagged) images
and therefore none of the listed tagged references, and listing calls are
read-only. -/

/-- One live container: name, run state, owning compose project label. -/
structure ContainerR where
  name : String
  running : Bool
  project : Option String
deriving DecidableEq, Repr

/-- One live volume or network with its owning compose project label. -/
structure NamedR where
  name : String
  project : Option String
deriving DecidableEq, Repr

/-- The daemon's observable resource state. -/
structure DaemonState where
  containers : List ContainerR
  images : List String
  volumes : List NamedR
  networks : List NamedR
deriving DecidableEq, Repr

/-- A daemon CLI invocation issued by the cleanup script. -/
inductive Cmd where
  | stop (c : String) : Cmd
  | rm (c : String) : Cmd
  | rmi (i : String) : Cmd
  | volumeRm (v : String) : Cmd
  | networkRm (n : String) : Cmd
  | composeDown (p : String) (files : List String) (removeVolumes : Bool) : Cmd
  | composeConfig (p : String) (files : List String) : Cmd
  | imagesByRepo (repo : String) : Cmd
  | imagesList : Cmd
  | psAll : Cmd
  | volumeList : Cmd
  | networkList : Cmd
  | imagePrune : Cmd
deriving DecidableEq, Repr

/-- `image.split(":")[0] if ":" in image else image`: the text before the
first colon of an image reference. -/
def repoOf (image : String) : String := (strSplitOn image ":").headD image

/-- `docker stop`: a present container becomes stopped; an absent name fails
with no state change. -/
def stopExec (s : DaemonState) (n : String) : DaemonState :=
  { s with containers :=
      s.containers.map (fun c => if c.name = n then { c with running := false } else c) }

/-- `docker rm`: a present stopped container is removed; a running or absent
one fails with no state change. -/
def rmExec (s : DaemonState) (n : String) : DaemonState :=
  { s with containers := s.containers.filter (fun c => !(c.name == n && !c.running)) }

/-- `docker rmi -f`: remove the exact listed reference when present. -/
def rmiExec (s : DaemonState) (i : String) : DaemonState :=
  { s with images := s.images.filter (fun r => r != i) }

/-- `docker volume rm`: remove the named volume when present. -/
def volumeRmExec (s : DaemonState) (n : String) : DaemonState :=
  { s with volumes := s.volumes.filter (fun v => v.name != n) }

/-- `docker network rm`: remove the named network when present. -/
def networkRmExec (s : DaemonState) (n : String) : DaemonState :=
  { s with networks := s.networks.filter (fun v => v.name != n) }

/-- `docker compose down [-v] --remove-orphans`: tear down every container
and network labelled with the project, and its volumes when `-v` is given. -/
def composeDownExec (s : DaemonState) (p : String) (removeVolumes : Bool) : DaemonState :=
  { s with
    containers := s.containers.filter (fun c => c.project != some p)
    networks := s.networks.filter (fun n => n.project != some p)
    volumes :=
      if removeVolumes then s.volumes.filter (fun v => v.project != some p)
      else s.volumes }

/-- Effect of one daemon call on the daemon state. -/
def execCmd (s : DaemonState) : Cmd → DaemonState
  | .stop c => stopExec s c
  | .rm c => rmExec s c
  | .rmi i => rmiExec s i
  | .volumeRm v => volumeRmExec s v
  | .networkRm n => networkRmExec s n
  | .composeDown p _ rv => composeDownExec s p rv
  | _ => s

/-- Exit status of one daemon call: removals fail (nonzero) when the target
is absent or, for `docker rm`, still running. -/
def exitCode (s : DaemonState) : Cmd → Int
  | .stop c => if s.containers.any (fun x => x.name == c) then 0 else 1
  | .rm c => if s.containers.any (fun x => x.name == c && !x.running) then 0 else 1
  | .rmi i => if s.images.contains i then 0 else 1
  | .volumeRm v => if s.volumes.any (fun x => x.name == v) then 0 else 1
  | .networkRm n => if s.networks.any (fun x => x.name == n) then 0 else 1
  | _ => 0

/-- `docker images <repo> --format {{.Repository}}:{{.Tag}}`: the listed
references whose repository part is `repo`, one per stdout line. -/
def listRepoTags (s : DaemonState) (repo : String) : List String :=
  s.images.filter (fun r => repoOf r == repo)

/-! ## DockerCleaner -/

/-- The spec's ResourceSet: the four per-kind identifier collections the
reconciliation engine consumes (`extractor.containers` and friends, as sets
of strings). -/
structure ResourceSet where
  containers : List String
  images : List String
  volumes : List String
  networks : List String
deriving DecidableEq, Repr

/-- Observable outcome of a run: final daemon state, the daemon-mutating
calls executed, the commands announced in `[DRY-RUN] Would run:` messages,
and the read-only daemon calls performed. -/
structure Outcome where
  state : DaemonState
  issued : List Cmd
  announced : List Cmd
  reads : List Cmd
deriving DecidableEq, Repr

/-- `run_command(cmd, dry_run=dry)` at a `check=False` call site: in dry-run
the command is announced and nothing reaches the daemon; otherwise it
executes and any nonzero exit is returned, not raised. -/
def runCommand (o : Outcome) (dry : Bool) (c : Cmd) : Outcome :=
  if dry then { o with announced := o.announced ++ [c] }
  else { o with state := execCmd o.state c, issued := o.issued ++ [c] }

/-- A read-only `run_command` call made without a `dry_run` argument
(`docker images ...` under `clean_images`): always executes. -/
def runRead (o : Outcome) (c : Cmd) : Outcome :=
  { o with reads := o.reads ++ [c] }

/-- `run_command` with its `check` flag: `subprocess.run(..., check=check)`
raises `CalledProcessError` exactly when `check` is set and the exit status
is nonzero, and the `except` clause re-raises it then (its `return e` branch
is unreachable because no exception arises when `check` is false). -/
def runCommandE (o : Outcome) (dry check : Bool) (c : Cmd) : Except PyErr Outcome :=
  if dry then .ok { o with announced := o.announced ++ [c] }
  else if check ∧ exitCode o.state c ≠ 0 then
    .error (.calledProcessError (exitCode o.state c))
  else .ok { o with state := execCmd o.state c, issued := o.issued ++ [c] }

/-- Loop body of `clean_containers`: stop, then remove, unconditionally. -/
def cleanContainerStep (dry : Bool) (o : Outcome) (c : String) : Outcome :=
  runCommand (runCommand o dry (.stop c)) dry (.rm c)

/-- `DockerCleaner.clean_containers` (an empty set logs and issues nothing,
which coincides with the empty fold). -/
def clean_containers (rs : ResourceSet) (dry : Bool) (o : Outcome) : Outcome :=
  rs.containers.foldl (cleanContainerStep dry) o

/-- Loop body of `clean_images`: force-remove the declared reference; then,
only when not in dry-run, list the local tags sharing its bare repository
and force-remove each non-empty listed reference. -/
def cleanImageStep (dry : Bool) (o : Outcome) (i : String) : Outcome :=
  let o := runCommand o dry (.rmi i)
  if dry then o
  else
    let o := runRead o (.imagesByRepo (repoOf i))
    let tags := listRepoTags o.state (repoOf i)
    (tags.filter (fun t => t != "")).foldl (fun o t => runCommand o dry (.rmi t)) o

/-- `DockerCleaner.clean_images`. -/
def clean_images (rs : ResourceSet) (dry : Bool) (o : Outcome) : Outcome :=
  rs.images.foldl (cleanImageStep dry) o

/-- Loop body of `clean_volumes`: remove the bare name, then every
`{project}_{name}` variant, unconditionally. -/
def cleanVolumeStep (pns : List String) (dry : Bool) (o : Outcome) (v : String) : Outcome :=
  let o := runCommand o dry (.volumeRm v)
  pns.foldl (fun o p => runCommand o dry (.volumeRm (p ++ "_" ++ v))) o

/-- `DockerCleaner.clean_volumes`. -/
def clean_volumes (rs : ResourceSet) (pns : List String) (dry : Bool) (o : Outcome) : Outcome :=
  rs.volumes.foldl (cleanVolumeStep pns dry) o

/-- Loop body of `clean_networks`, shaped like the volume loop. -/
def cleanNetworkStep (pns : List String) (dry : Bool) (o : Outcome) (n : String) : Outcome :=
  let o := runCommand o dry (.networkRm n)
  pns.foldl (fun o p => runCommand o dry (.networkRm (p ++ "_" ++ n))) o

/-- `DockerCleaner.clean_networks`. -/
def clean_networks (rs : ResourceSet) (pns : List String) (dry : Bool) (o : Outcome) : Outcome :=
  rs.networks.foldl (cleanNetworkStep pns dry) o

/-- `DockerCleaner.clean_compose_projects`: `docker compose -p <project>
-f <base> -f <runtime> down -v --remove-orphans` for every project name. -/
def clean_compose_projects (pns : List String) (files : List String) (dry : Bool)
    (o : Outcome) : Outcome :=
  pns.foldl (fun o p => runCommand o dry (.composeDown p files true)) o

/-- A fresh outcome over a given daemon state. -/
def initOutcome (s : DaemonState) : Outcome :=
  { state := s, issued := [], announced := [], reads := [] }

/-- The full cleanup sequence in driver order: containers, images, volumes,
networks, compose projects. -/
def cleanupRun (rs : ResourceSet) (pns : List String) (files : List String)
    (dry : Bool) (s : DaemonState) : Outcome :=
  let o := initOutcome s
  let o := clean_containers rs dry o
  let o := clean_images rs dry o
  let o := clean_volumes rs pns dry o
  let o := clean_networks rs pns dry o
  clean_compose_projects pns files dry o

/-! Exception-carrying variants of the cleanup sequence.  Every `run_command`
call site in `DockerCleaner` leaves `check` at its default `False`; the
variants pass that flag explicitly so that the impossibility of a raised
`CalledProcessError` is a provable statement rather than a modelling
assumption. -/

/-- `clean_containers` with the exception-carrying `run_command`. -/
def clean_containersE (rs : ResourceSet) (dry : Bool) (o : Outcome) :
    Except PyErr Outcome :=
  rs.containers.foldlM
    (fun o c => do
      let o ← runCommandE o dry false (.stop c)
      runCommandE o dry false (.rm c))
    o

/-- `clean_images` with the exception-carrying `run_command`. -/
def clean_imagesE (rs : ResourceSet) (dry : Bool) (o : Outcome) :
    Except PyErr Outcome :=
  rs.images.foldlM
    (fun o i => do
      let o ← runCommandE o dry false (.rmi i)
      if dry then pure o
      else
        let o := runRead o (.imagesByRepo (repoOf i))
        let tags := listRepoTags o.state (repoOf i)
        (tags.filter (fun t => t != "")).foldlM
          (fun o t => runCommandE o dry false (.rmi t)) o)
    o

/-- `clean_volumes` with the exception-carrying `run_command`. -/
def clean_volumesE (rs : ResourceSet) (pns : List String) (dry : Bool) (o : Outcome) :
    Except PyErr Outcome :=
  rs.volumes.foldlM
    (fun o v => do
      let o ← runCommandE o dry false (.volumeRm v)
      pns.foldlM (fun o p => runCommandE o dry false (.volumeRm (p ++ "_" ++ v))) o)
    o

/-- `clean_networks` with the exception-carrying `run_command`. -/
def clean_networksE (rs : ResourceSet) (pns : List String) (dry : Bool) (o : Outcome) :
    Except PyErr Outcome :=
  rs.networks.foldlM
    (fun o n => do
      let o ← runCommandE o dry false (.networkRm n)
      pns.foldlM (fun o p => runCommandE o dry false (.networkRm (p ++ "_" ++ n))) o)
    o

/-- `clean_compose_projects` with the exception-carrying `run_command`. -/
def clean_compose_projectsE (pns : List String) (files : List String) (dry : Bool)
    (o : Outcome) : Except PyErr Outcome :=
  pns.foldlM (fun o p => runCommandE o dry false (.composeDown p files true)) o

/-- The full cleanup sequence with the exception-carrying `run_command`. -/
def cleanupRunE (rs : ResourceSet) (pns : List String) (files : List String)
    (dry : Bool) (s : DaemonState) : Except PyErr Outcome := do
  let o := initOutcome s
  let o ← clean_containersE rs dry o
  let o ← clean_imagesE rs dry o
  let o ← clean_volumesE rs pns dry o
  let o ← clean_networksE rs pns dry o
  clean_compose_projectsE pns files dry o

/-! ## Manifest parsing and merged-config fetching -/

/-- What the filesystem holds at a manifest path: no file, a file whose read
or YAML parse raises, or a file parsing to a tree.  `yaml.safe_load` returns
Python `None` for an empty document, which is `Tree.null`. -/
inductive FileOutcome where
  | absent : FileOutcome
  | failure (e : PyErr) : FileOutcome
  | parsed (t : Tree) : FileOutcome
deriving DecidableEq, Repr

/-- `open(file_path)` followed by `yaml.safe_load(f)`: the body of the `try`
block of `parse_compose_file`, which raises on a read or syntax failure. -/
def readAndLoad : FileOutcome → Except PyErr Tree
  | .absent => .error .ioError
  | .failure e => .error e
  | .parsed t => .ok t

/-- `parse_compose_file`: a missing file short-circuits to `None` (with a
warning) before the `try` block; a read or parse failure is caught by the
`except Exception` clause, logged, and turned into `None`. -/
def parse_compose_file (f : FileOutcome) : Tree :=
  if f = .absent then .null
  else
    match readAndLoad f with
    | .ok t => t
    | .error _ => .null

/-- The daemon's response to one `docker compose ... config` call: its exit
status and the YAML parse outcome of its stdout. -/
structure ConfigResult where
  exit : Int
  output : Except PyErr Tree

/-- The `try` block of `get_merged_compose_config`: run the daemon call; a
nonzero exit logs a warning and returns `None`, otherwise the stdout parse
outcome is returned, a parse failure raising out of the block. -/
def getMergedTryBody (cfg : ConfigResult) : Except PyErr Tree :=
  if cfg.exit ≠ 0 then .ok .null
  else cfg.output

/-- `get_merged_compose_config(base_compose, runtime_compose, project_name)`:
`None` without any daemon call unless both files exist; otherwise one
`docker compose -p <project> -f <base> -f <runtime> config` call (base
before overlay), whose failure — nonzero exit or unparseable output, the
latter caught by `except Exception` — yields `None`.  The second component
is the list of daemon calls made. -/
def get_merged_compose_config (baseExists runtimeExists : Bool)
    (cfg : String → ConfigResult) (basePath runtimePath p : String) :
    Tree × List Cmd :=
  if !(baseExists && runtimeExists) then (.null, [])
  else
    let call := Cmd.composeConfig p [basePath, runtimePath]
    match getMergedTryBody (cfg p) with
    | .ok t => (t, [call])
    | .error _ => (.null, [call])

/-! ## DockerReporter and the remaining cleaner steps -/

/-- Python `needle in hay` on strings. -/
def strContains (hay needle : String) : Bool :=
  if needle = "" then true else (strSplitOn hay needle).length ≥ 2

/-- `any(pattern in name.lower() for pattern in patterns)`. -/
def matchesPatterns (pats : List String) (name : String) : Bool :=
  pats.any (fun p => strContains (strLower name) p)

/-- `DockerReporter.calculate_total_size`: sum the parsed sizes; a size
containing a virtual-size annotation is truncated at the `(` and stripped
before parsing. -/
def calculate_total_size (sizes : List String) : PyFloat :=
  sizes.foldl
    (fun acc s =>
      let s := if strContains s "(" then strTrim ((strSplitOn s "(").headD s) else s
      acc.add (parse_size_string s))
    0

/-- The data `DockerReporter.print_report` derives from the live listings:
the pattern-matching leftovers per kind and the per-kind size totals. -/
structure ReportSummary where
  containers : List ContainerR
  images : List String
  volumes : List NamedR
  networks : List NamedR
  containersSize : PyFloat
  imagesSize : PyFloat
  volumesSize : PyFloat

/-- `DockerReporter.print_report` with patterns `["juno", "helios"]`: query
the four live listings, filter each by the patterns, and total the daemon's
size strings (`sizeOf` maps a resource name to the size column the daemon
reports for it).  Log output is not modelled. -/
def print_report (pats : List String) (size : String → String) (o : Outcome) :
    Outcome × ReportSummary :=
  let o := runRead o .psAll
  let o := runRead o .imagesList
  let o := runRead o .volumeList
  let o := runRead o .networkList
  let cs := o.state.containers.filter (fun c => matchesPatterns pats c.name)
  let is := o.state.images.filter (fun r => matchesPatterns pats r)
  let vs := o.state.volumes.filter (fun v => matchesPatterns pats v.name)
  let ns := o.state.networks.filter (fun n => matchesPatterns pats n.name)
  (o,
    { containers := cs, images := is, volumes := vs, networks := ns
      containersSize := calculate_total_size (cs.map (fun c => size c.name))
      imagesSize := calculate_total_size (is.map size)
      volumesSize := calculate_total_size (vs.map (fun v => size v.name)) })

/-- `clean_leftover_images_by_pattern`: list every image (this read runs even
in dry-run), filter the juno/helios-matching references, and force-remove
each through `run_command` with the dry-run flag.  The listing's ID column is
modelled by the reference itself. -/
def clean_leftover_images_by_pattern (dry : Bool) (o : Outcome) : Outcome :=
  let o := runRead o .imagesList
  let leftover := o.state.images.filter (fun r => matchesPatterns ["juno", "helios"] r)
  leftover.foldl (fun o r => runCommand o dry (.rmi r)) o

/-- `clean_dangling_images`: in dry-run only logs; otherwise prompts, and on
a stripped, lowercased answer of `y`/`yes` runs `docker image prune -f`
(end-of-input or interrupt, `none`, skips the step). -/
def clean_dangling_images (dry : Bool) (answer : Option String) (o : Outcome) : Outcome :=
  if dry then o
  else
    match answer with
    | none => o
    | some resp =>
      if strLower (strTrim resp) = "y" ∨ strLower (strTrim resp) = "yes" then
        runCommand o false .imagePrune
      else o

/-! ## The driver (`main`) -/

/-- The environment `main` runs against: the two manifest files, the daemon's
per-project `compose config` responses, its resource state, the size strings
its listings report, the interactive answer to the dangling-image prompt
(`none` models end-of-input or interrupt), and the `--dry-run` flag. -/
structure MainEnv where
  baseFile : FileOutcome
  runtimeFile : FileOutcome
  basePath : String
  runtimePath : String
  config : String → ConfigResult
  daemon : DaemonState
  size : String → String
  promptAnswer : Option String
  dryRun : Bool

/-- Identifiers handed to `subprocess.run` must be strings; any other
extracted value makes Python's command construction raise `TypeError`.  The
check is hoisted to the hand-off from the extractor to the cleaner. -/
def idStrings (l : List Tree) : Except PyErr (List String) :=
  l.mapM (fun t => match t with | .str s => .ok s | _ => .error .typeError)

/-- One iteration of `main`'s merged-extraction loop: fetch the project's
merged config (recording the daemon call) and, when the result is truthy,
extract from it — propagating any extraction exception. -/
def mergedExtractStep (env : MainEnv) (acc : ExtractorState × Outcome)
    (p : String) : Except PyErr (ExtractorState × Outcome) :=
  let mc := get_merged_compose_config (env.baseFile ≠ .absent)
    (env.runtimeFile ≠ .absent) env.config env.basePath env.runtimePath p
  let o := { acc.2 with reads := acc.2.reads ++ mc.2 }
  if mc.1.truthy then
    match extract_from_merged acc.1 mc.1 with
    | (st', none) => .ok (st', o)
    | (_, some e) => .error e
  else .ok (acc.1, o)

/-- `main`'s merged-extraction loop over the known project names. -/
def mergedExtract (env : MainEnv) (st : ExtractorState) (o : Outcome) :
    Except PyErr (ExtractorState × Outcome) :=
  project_names.foldlM (mergedExtractStep env) (st, o)

/-- `main`'s teardown tail: compose `down` per project, the five cleaner
phases, the leftover-image sweep, the dangling-image prompt and, when not
in dry-run, the post-cleanup report. -/
def mainTeardownE (env : MainEnv) (rs : ResourceSet) (o : Outcome) :
    Except PyErr Outcome := do
  let files := [env.basePath, env.runtimePath]
  let o ← project_names.foldlM
    (fun o p => runCommandE o env.dryRun false (.composeDown p files false)) o
  let o ← clean_containersE rs env.dryRun o
  let o ← clean_imagesE rs env.dryRun o
  let o ← clean_volumesE rs project_names env.dryRun o
  let o ← clean_networksE rs project_names env.dryRun o
  let o ← clean_compose_projectsE project_names files env.dryRun o
  let o := clean_leftover_images_by_pattern env.dryRun o
  let o := clean_dangling_images env.dryRun env.promptAnswer o
  pure (if !env.dryRun then (print_report ["juno", "helios"] env.size o).1 else o)

/-- `main()`: parse both manifests, bail out with exit code 1 when both
results are falsy, extract from the independent files and from each
project's merged config, then drive the teardown sequence and return exit
code 0.  An exception escaping any step is a `.error`. -/
def mainE (env : MainEnv) : Except PyErr (Int × Outcome) :=
  let base_config := parse_compose_file env.baseFile
  let runtime_config := parse_compose_file env.runtimeFile
  if !base_config.truthy && !runtime_config.truthy then
    .ok (1, initOutcome env.daemon)
  else
    match extract_all initExtractor base_config runtime_config with
    | (_, some e) => .error e
    | (st, none) =>
      match mergedExtract env st (initOutcome env.daemon) with
      | .error e => .error e
      | .ok (st, o) =>
        match idStrings st.containers.all, idStrings st.images.all,
            idStrings st.volumes.all, idStrings st.networks.all with
        | .ok cs, .ok is, .ok vs, .ok ns =>
          (mainTeardownE env ⟨cs, is, vs, ns⟩ o).map (fun o => (0, o))
        | .error e, _, _, _ => .error e
        | _, .error e, _, _ => .error e
        | _, _, .error e, _ => .error e
        | _, _, _, .error e => .error e

/-! ## Trace helpers

State-independent descriptions of the command lists each cleaner phase
produces, and fold lemmas relating them to the runs. -/

/-- Whether a command is a `docker volume rm`. -/
def Cmd.isVolumeRm : Cmd → Bool
  | .volumeRm _ => true
  | _ => false

/-- Whether a command is a `docker network rm`. -/
def Cmd.isNetworkRm : Cmd → Bool
  | .networkRm _ => true
  | _ => false

/-- The stop/remove pairs `clean_containers` runs. -/
def containerCmds (l : List String) : List Cmd :=
  l.flatMap (fun c => [.stop c, .rm c])

/-- The per-reference removals `clean_images` announces (the tag sweep is
skipped in dry-run). -/
def imageAnnounceCmds (l : List String) : List Cmd := l.map .rmi

/-- The bare and project-prefixed removals `clean_volumes` runs. -/
def volumeCmds (pns : List String) (l : List String) : List Cmd :=
  l.flatMap (fun v => .volumeRm v :: pns.map (fun p => .volumeRm (p ++ "_" ++ v)))

/-- The bare and project-prefixed removals `clean_networks` runs. -/
def networkCmds (pns : List String) (l : List String) : List Cmd :=
  l.flatMap (fun n => .networkRm n :: pns.map (fun p => .networkRm (p ++ "_" ++ n)))

/-- The per-project teardowns `clean_compose_projects` runs. -/
def downCmds (pns : List String) (files : List String) : List Cmd :=
  pns.map (fun p => .composeDown p files true)

/-! ## C1: daemon-state evolution of the executed cleanup -/

/-- State effect of one `clean_containers` iteration: stop, then remove. -/
def containerStateStep (s : DaemonState) (c : String) : DaemonState :=
  execCmd (execCmd s (.stop c)) (.rm c)

/-- State effect of one `clean_images` iteration: remove the declared
reference, then remove each listed non-empty tag of its repository. -/
def imageStateStep (s : DaemonState) (i : String) : DaemonState :=
  ((listRepoTags (execCmd s (.rmi i)) (repoOf i)).filter (fun t => t != "")).foldl
    (fun s t => execCmd s (.rmi t)) (execCmd s (.rmi i))

/-- State effect of one `clean_volumes` iteration: bare removal, then the
prefixed removals. -/
def volumeStateStep (pns : List String) (s : DaemonState) (v : String) : DaemonState :=
  pns.foldl (fun s p => execCmd s (.volumeRm (p ++ "_" ++ v)))
    (execCmd s (.volumeRm v))

/-- State effect of one `clean_networks` iteration. -/
def networkStateStep (pns : List String) (s : DaemonState) (n : String) : DaemonState :=
  pns.foldl (fun s p => execCmd s (.networkRm (p ++ "_" ++ n)))
    (execCmd s (.networkRm n))

/-- State effect of one `clean_compose_projects` iteration. -/
def downStateStep (s : DaemonState) (p : String) : DaemonState :=
  composeDownExec s p true

/-- The daemon state an executed cleanup run leaves behind. -/
def cleanupState (rs : ResourceSet) (pns : List String) (s : DaemonState) :
    DaemonState :=
  pns.foldl downStateStep
    (rs.networks.foldl (networkStateStep pns)
      (rs.volumes.foldl (volumeStateStep pns)
        (rs.images.foldl imageStateStep
          (rs.containers.foldl containerStateStep s))))

/-- Name and project label of each live container. -/
def cnp (s : DaemonState) : List (String × Option String) :=
  s.containers.map (fun c => (c.name, c.project))

/-- `s'` holds no resource that `s` does not: containers compared by name
and project label (stopping may flip the run state), the other kinds by
element.  Every cleanup command only removes, so runs shrink the state. -/
def Shrinks (s' s : DaemonState) : Prop :=
  (∀ x ∈ cnp s', x ∈ cnp s) ∧ (∀ x ∈ s'.images, x ∈ s.images) ∧
  (∀ x ∈ s'.volumes, x ∈ s.volumes) ∧ (∀ x ∈ s'.networks, x ∈ s.networks)

/-! Absence predicates over the daemon state, all stable under shrinking. -/

/-- No live container carries this name. -/
def noContainerNamed (s : DaemonState) (n : String) : Prop :=
  ∀ x ∈ cnp s, x.1 ≠ n

/-- Every listed reference of this repository is the empty string (the one
shape the tag sweep's `if img:` guard skips). -/
def noRepoTagExceptEmpty (s : DaemonState) (b : String) : Prop :=
  ∀ r ∈ s.images, repoOf r = b → r = ""

/-- No live volume carries this name. -/
def noVolumeNamed (s : DaemonState) (n : String) : Prop :=
  ∀ v ∈ s.volumes, v.name ≠ n

/-- No live network carries this name. -/
def noNetworkNamed (s : DaemonState) (n : String) : Prop :=
  ∀ v ∈ s.networks, v.name ≠ n

/-- No live container, volume or network is labelled with this project. -/
def noProject (s : DaemonState) (p : String) : Prop :=
  (∀ x ∈ cnp s, x.2 ≠ some p) ∧ (∀ v ∈ s.volumes, v.project ≠ some p) ∧
  (∀ v ∈ s.networks, v.project ≠ some p)

/-- Every removal target of a cleanup over `rs` is absent from `s`. -/
def FactsAll (rs : ResourceSet) (pns : List String) (s : DaemonState) : Prop :=
  (∀ c ∈ rs.containers, noContainerNamed s c) ∧
  (∀ i ∈ rs.images, i ∉ s.images ∧ noRepoTagExceptEmpty s (repoOf i)) ∧
  (∀ v ∈ rs.volumes, noVolumeNamed s v ∧
    ∀ p ∈ pns, noVolumeNamed s (p ++ "_" ++ v)) ∧
  (∀ n ∈ rs.networks, noNetworkNamed s n ∧
    ∀ p ∈ pns, noNetworkNamed s (p ++ "_" ++ n)) ∧
  (∀ p ∈ pns, noProject s p)

/-- The removal target of a command is already absent from `s`. -/
def targetAbsent (s : DaemonState) : Cmd → Prop
  | .stop c => noContainerNamed s c
  | .rm c => noContainerNamed s c
  | .rmi i => i ∉ s.images
  | .volumeRm v => noVolumeNamed s v
  | .networkRm n => noNetworkNamed s n
  | .composeDown p _ _ => noProject s p
  | _ => True

/-- One kind's union set is exactly the union of its two shadow sets, and
all three are duplicate-free. -/
def KindSets.UnionInv (k : KindSets) : Prop :=
  (∀ x, x ∈ k.all ↔ (x ∈ k.independent ∨ x ∈ k.merged)) ∧
  k.all.Nodup ∧ k.independent.Nodup ∧ k.merged.Nodup

/-- The invariant across all four resource kinds. -/
def ExtractorState.UnionInv (st : ExtractorState) : Prop :=
  st.containers.UnionInv ∧ st.images.UnionInv ∧ st.volumes.UnionInv ∧
  st.networks.UnionInv

/-! ## C10: totality of the per-config extraction -/

/-- Whether a tree value is a sequence (`isinstance(x, list)`). -/
def Tree.isList : Tree → Bool
  | .list _ => true
  | _ => false

/-- The precondition under which `_extract_from_config` cannot raise: the
tree is a mapping and its `services` entry, when present, is a mapping (the
`{}` default for an absent entry is). -/
def Tree.extractable : Tree → Bool
  | .dict kvs => (lookupD kvs "services" (.dict [])).isDict
  | _ => false

/-! ## C3: exit code and degradation of the driver -/

/-- Whether a tree value is a string. -/
def Tree.isStr : Tree → Bool
  | .str _ => true
  | _ => false

/-- Every truthy `cache_from` entry reachable from the service mapping is a
string. -/
def cacheStrOk (skvs : List (String × Tree)) : Bool :=
  match lookupD skvs "build" (.dict []) with
  | .dict bkvs =>
    match lookupD bkvs "cache_from" (.list []) with
    | .list imgs => imgs.all (fun i => !i.truthy || i.isStr)
    | _ => true
  | _ => true

/-- Every truthy identifier value one service entry can contribute is a
string (so handing it to `subprocess.run` cannot raise `TypeError`). -/
def serviceStrIdents (sc : Tree) : Bool :=
  match sc with
  | .dict skvs =>
    (!(lookupD skvs "container_name" .null).truthy ||
      (lookupD skvs "container_name" .null).isStr) &&
    ((!(lookupD skvs "image" .null).truthy ||
      (lookupD skvs "image" .null).isStr) && cacheStrOk skvs)
  | _ => true

/-- Every identifier any service of the tree can contribute is a string;
volume and network identifiers are mapping keys and always strings. -/
def Tree.strIdents (t : Tree) : Bool :=
  match t with
  | .dict kvs =>
    match lookupD kvs "services" (.dict []) with
    | .dict skvs => skvs.all (fun kv => serviceStrIdents kv.2)
    | _ => true
  | _ => true

/-- All members of the list are string values. -/
def allStrIdents (l : List Tree) : Prop := ∀ x ∈ l, x.isStr = true

/-- Every accumulated union identifier is a string. -/
def ExtractorState.strIdents (st : ExtractorState) : Prop :=
  allStrIdents st.containers.all ∧ allStrIdents st.images.all ∧
  allStrIdents st.volumes.all ∧ allStrIdents st.networks.all

/-- The pure value of `main`'s teardown tail. -/
def mainTeardown (env : MainEnv) (rs : ResourceSet) (o : Outcome) : Outcome :=
  let files := [env.basePath, env.runtimePath]
  let o := project_names.foldl
    (fun o p => runCommand o env.dryRun (.composeDown p files false)) o
  let o := clean_containers rs env.dryRun o
  let o := clean_images rs env.dryRun o
  let o := clean_volumes rs project_names env.dryRun o
  let o := clean_networks rs project_names env.dryRun o
  let o := clean_compose_projects project_names files env.dryRun o
  let o := clean_leftover_images_by_pattern env.dryRun o
  let o := clean_dangling_images env.dryRun env.promptAnswer o
  if !env.dryRun then (print_report ["juno", "helios"] env.size o).1 else o

/-! ## Hashability-faithful extraction

Python's `set.add` raises `TypeError: unhashable type` when handed a list or
a dict; `insertNew` above elides that error path (its call sites in the other
developments either receive provably string identifiers or quantify over
already-accumulated sets).  The `H` variants below re-embed
`_extract_from_config` with the `TypeError` path of every `set.add` modelled,
so that raising behaviour can be settled exactly. -/

/-- Python hashability of a tree value: strings, ints, bools, `None` are
hashable; lists and mappings are not, and `set.add` raises `TypeError` on
them. -/
def Tree.hashable : Tree → Bool
  | .list _ => false
  | .dict _ => false
  | _ => true

/-- Python `set.add` with its error path: `TypeError` when the added value is
unhashable, otherwise insert unless already present. -/
def insertNewH (l : List Tree) (x : Tree) : Except PyErr (List Tree) :=
  if x.hashable then .ok (insertNew l x) else .error .typeError

/-- The paired adds of `_extract_from_config` with the error path: if the
first `add` raises, the shadow add never runs and no set changes; the pair
returns the sets as mutated so far together with the raised error, if any. -/
def KindSets.recordH (k : KindSets) (src : Source) (x : Tree) :
    KindSets × Option PyErr :=
  match insertNewH k.all x with
  | .error e => (k, some e)
  | .ok all' =>
    if src = .independent then
      match insertNewH k.independent x with
      | .error e => ({ k with all := all' }, some e)
      | .ok ind => ({ k with all := all', independent := ind }, none)
    else
      match insertNewH k.merged x with
      | .error e => ({ k with all := all' }, some e)
      | .ok mrg => ({ k with all := all', merged := mrg }, none)

/-- `container_name = service_config.get("container_name")` followed by
`if container_name: self.containers.add(container_name)` plus the shadow add,
with the `TypeError` path. -/
def addContainerH (src : Source) (st : ExtractorState) (cn : Tree) :
    ExtractorState × Option PyErr :=
  if cn.truthy then
    match st.containers.recordH src cn with
    | (cs, oe) => ({ st with containers := cs }, oe)
  else (st, none)

/-- One `if img: self.images.add(img)` plus the shadow add, with the
`TypeError` path (used for both the `image` value and `cache_from` entries,
which Python records through the same pair of sets). -/
def addImageH (src : Source) (st : ExtractorState) (img : Tree) :
    ExtractorState × Option PyErr :=
  if img.truthy then
    match st.images.recordH src img with
    | (ims, oe) => ({ st with images := ims }, oe)
  else (st, none)

/-- Exception propagation between two statements: the second statement runs
only when the first raised nothing; a pending exception carries the state as
mutated so far. -/
def andThenE (p : ExtractorState × Option PyErr)
    (f : ExtractorState → ExtractorState × Option PyErr) :
    ExtractorState × Option PyErr :=
  match p with
  | (st, none) => f st
  | e => e

/-- The `build`/`cache_from` part of the per-service loop with the
`TypeError` path: same guards as `recordCacheFrom`, each truthy entry
recorded through the raising add, the loop stopping at the first raise. -/
def recordCacheFromH (st : ExtractorState) (src : Source)
    (skvs : List (String × Tree)) : ExtractorState × Option PyErr :=
  match lookupD skvs "build" (.dict []) with
  | .dict bkvs =>
    match lookupD bkvs "cache_from" (.list []) with
    | .list imgs =>
      imgs.foldl (fun p img => andThenE p (fun st => addImageH src st img))
        (st, none)
    | _ => (st, none)
  | _ => (st, none)

/-- The body of the per-service loop with the `TypeError` path: a non-mapping
service config is skipped; otherwise the truthy `container_name`, the truthy
`image`, and the build cache sources are recorded in that order, stopping at
the first raise. -/
def processServiceH (st : ExtractorState) (src : Source) (sc : Tree) :
    ExtractorState × Option PyErr :=
  match sc with
  | .dict skvs =>
    andThenE (addContainerH src st (lookupD skvs "container_name" .null))
      (fun st => andThenE (addImageH src st (lookupD skvs "image" .null))
        (fun st => recordCacheFromH st src skvs))
  | _ => (st, none)

/-- `_extract_from_config(config, source)` with every `set.add`'s `TypeError`
path modelled.  The volume and network sections record mapping keys, which
are strings and therefore always hashable, so the total section recorders are
exact there; `AttributeError` on a non-mapping config or a non-mapping truthy
`services` value is as in `_extract_from_config`. -/
def _extract_from_config_h (st : ExtractorState) (config : Tree) (src : Source) :
    ExtractorState × Option PyErr :=
  match config with
  | .dict ckvs =>
    match lookupD ckvs "services" (.dict []) with
    | .dict skvs =>
      andThenE
        (skvs.foldl
          (fun p kv => andThenE p (fun st => processServiceH st src kv.2))
          (st, none))
        (fun st =>
          (extractNetworksSection
            (extractVolumesSection st src (lookupD ckvs "volumes" (.dict [])))
            src (lookupD ckvs "networks" (.dict [])), none))
    | _ => (st, some .attributeError)
  | _ => (st, some .attributeError)

/-- Every truthy `cache_from` entry reachable from the service mapping is
hashable. -/
def cacheHashOk (skvs : List (String × Tree)) : Bool :=
  match lookupD skvs "build" (.dict []) with
  | .dict bkvs =>
    match lookupD bkvs "cache_from" (.list []) with
    | .list imgs => imgs.all (fun i => !i.truthy || i.hashable)
    | _ => true
  | _ => true

/-- Every identifier value one service entry would add to a set is hashable:
its truthy `container_name` and `image` values and every truthy entry of a
list-valued `cache_from` under a mapping `build`. -/
def serviceHashOk (sc : Tree) : Bool :=
  match sc with
  | .dict skvs =>
    (!(lookupD skvs "container_name" .null).truthy ||
      (lookupD skvs "container_name" .null).hashable) &&
    ((!(lookupD skvs "image" .null).truthy ||
      (lookupD skvs "image" .null).hashable) && cacheHashOk skvs)
  | _ => true

/-- Every identifier any service of the tree would record is hashable;
volume and network identifiers are mapping keys and always hashable. -/
def Tree.hashOk (t : Tree) : Bool :=
  match t with
  | .dict kvs =>
    match lookupD kvs "services" (.dict []) with
    | .dict skvs => skvs.all (fun kv => serviceHashOk kv.2)
    | _ => true
  | _ => true

/-- Executing a command appends it to `issued` and steps the state. -/
theorem runCommand_false (o : Outcome) (c : Cmd) :
    runCommand o false c =
      { o with state := execCmd o.state c, issued := o.issued ++ [c] } := rfl

/-- A dry `run_command` only announces. -/
theorem runCommand_true (o : Outcome) (c : Cmd) :
    runCommand o true c = { o with announced := o.announced ++ [c] } := rfl

/-- Folding singleton command lists is mapping. -/
theorem flatMap_singleton_map {α β : Type} (l : List α) (k : α → β) :
    l.flatMap (fun a => [k a]) = l.map k := by
  induction l with
  | nil => rfl
  | cons a l ih => simp [List.flatMap_cons, ih]

/-- A fold whose step only announces accumulates the per-element commands. -/
theorem foldl_announce {α : Type} (f : Outcome → α → Outcome) (g : α → List Cmd)
    (h : ∀ o a, f o a = { o with announced := o.announced ++ g a }) :
    ∀ (l : List α) (o : Outcome),
      l.foldl f o = { o with announced := o.announced ++ l.flatMap g }
  | [], o => by simp
  | a :: l, o => by
    simp only [List.foldl_cons, foldl_announce f g h l, h o a, List.flatMap_cons,
      List.append_assoc]

/-- A fold whose step issues the per-element commands and touches neither
`announced` nor `reads` accumulates exactly those commands. -/
theorem foldl_exec {α : Type} (f : Outcome → α → Outcome) (g : α → List Cmd)
    (h : ∀ o a, (f o a).issued = o.issued ++ g a ∧
      (f o a).announced = o.announced ∧ (f o a).reads = o.reads) :
    ∀ (l : List α) (o : Outcome),
      (l.foldl f o).issued = o.issued ++ l.flatMap g ∧
      (l.foldl f o).announced = o.announced ∧ (l.foldl f o).reads = o.reads
  | [], o => by simp
  | a :: l, o => by
    obtain ⟨h1, h2, h3⟩ := foldl_exec f g h l (f o a)
    obtain ⟨k1, k2, k3⟩ := h o a
    refine ⟨?_, ?_, ?_⟩
    · rw [List.foldl_cons, h1, k1, List.flatMap_cons, List.append_assoc]
    · rw [List.foldl_cons, h2, k2]
    · rw [List.foldl_cons, h3, k3]

/-- Executed containers phase: exactly the stop/remove pairs. -/
theorem clean_containers_issued (rs : ResourceSet) (o : Outcome) :
    (clean_containers rs false o).issued = o.issued ++ containerCmds rs.containers ∧
    (clean_containers rs false o).announced = o.announced ∧
    (clean_containers rs false o).reads = o.reads :=
  foldl_exec _ (fun c => [.stop c, .rm c])
    (fun o c => by simp [cleanContainerStep, runCommand_false]) rs.containers o

/-- One executed image step, unfolded to its inner tag fold. -/
theorem cleanImageStep_false_eq (o : Outcome) (i : String) :
    cleanImageStep false o i =
      ((listRepoTags (runRead (runCommand o false (.rmi i))
          (.imagesByRepo (repoOf i))).state (repoOf i)).filter
        (fun t => t != "")).foldl (fun o t => runCommand o false (.rmi t))
        (runRead (runCommand o false (.rmi i)) (.imagesByRepo (repoOf i))) := rfl

/-- One executed image step: a force-removal of the declared reference
followed by force-removals only; `announced` is untouched. -/
theorem cleanImageStep_issued (o : Outcome) (i : String) :
    ∃ u : List Cmd,
      (cleanImageStep false o i).issued = o.issued ++ Cmd.rmi i :: u ∧
      (∀ c ∈ u, ∃ j, c = Cmd.rmi j) ∧
      (cleanImageStep false o i).announced = o.announced := by
  have hfold := foldl_exec
    (fun o t => runCommand o false (.rmi t)) (fun t => [Cmd.rmi t])
    (fun o t => by simp [runCommand_false])
    ((listRepoTags (runRead (runCommand o false (.rmi i))
      (.imagesByRepo (repoOf i))).state (repoOf i)).filter (fun t => t != ""))
    (runRead (runCommand o false (.rmi i)) (.imagesByRepo (repoOf i)))
  obtain ⟨h1, h2, h3⟩ := hfold
  refine ⟨((listRepoTags (runRead (runCommand o false (.rmi i))
      (.imagesByRepo (repoOf i))).state (repoOf i)).filter
      (fun t => t != "")).flatMap (fun t => [Cmd.rmi t]), ?_, ?_, ?_⟩
  · rw [cleanImageStep_false_eq, h1]
    simp [runRead, runCommand_false]
  · intro c hc
    simp only [List.mem_flatMap, List.mem_singleton] at hc
    obtain ⟨j, _, rfl⟩ := hc
    exact ⟨j, rfl⟩
  · rw [cleanImageStep_false_eq, h2]
    simp [runRead, runCommand_false]

/-- Executed images phase: some command list, every element of which is a
force-removal, containing a force-removal of every declared reference;
`announced` is untouched. -/
theorem clean_images_issued (l : List String) :
    ∀ o : Outcome, ∃ t : List Cmd,
      (l.foldl (cleanImageStep false) o).issued = o.issued ++ t ∧
      (∀ c ∈ t, ∃ i, c = Cmd.rmi i) ∧ (∀ i ∈ l, Cmd.rmi i ∈ t) ∧
      (l.foldl (cleanImageStep false) o).announced = o.announced := by
  induction l with
  | nil => exact fun o => ⟨[], by simp⟩
  | cons i l ih =>
    intro o
    obtain ⟨t, h1, h2, h3, h4⟩ := ih (cleanImageStep false o i)
    obtain ⟨u, k1, k2, k3⟩ := cleanImageStep_issued o i
    refine ⟨(Cmd.rmi i :: u) ++ t, ?_, ?_, ?_, ?_⟩
    · rw [List.foldl_cons, h1, k1, List.append_assoc]
    · intro c hc
      rcases List.mem_append.1 hc with hc' | hc'
      · rcases List.mem_cons.1 hc' with rfl | hc''
        · exact ⟨i, rfl⟩
        · exact k2 c hc''
      · exact h2 c hc'
    · intro j hj
      rcases List.mem_cons.1 hj with rfl | hj'
      · simp
      · exact List.mem_append.2 (Or.inr (h3 j hj'))
    · rw [List.foldl_cons, h4, k3]

/-- Executed volumes phase: exactly the bare and prefixed removals. -/
theorem clean_volumes_issued (rs : ResourceSet) (pns : List String) (o : Outcome) :
    (clean_volumes rs pns false o).issued = o.issued ++ volumeCmds pns rs.volumes ∧
    (clean_volumes rs pns false o).announced = o.announced ∧
    (clean_volumes rs pns false o).reads = o.reads := by
  refine foldl_exec _ (fun v => .volumeRm v :: pns.map (fun p => .volumeRm (p ++ "_" ++ v)))
    (fun o v => ?_) rs.volumes o
  have heq : cleanVolumeStep pns false o v =
      pns.foldl (fun o p => runCommand o false (.volumeRm (p ++ "_" ++ v)))
        (runCommand o false (.volumeRm v)) := rfl
  have hfold := foldl_exec
    (fun o p => runCommand o false (.volumeRm (p ++ "_" ++ v)))
    (fun p => [.volumeRm (p ++ "_" ++ v)])
    (fun o p => by simp [runCommand_false]) pns (runCommand o false (.volumeRm v))
  obtain ⟨h1, h2, h3⟩ := hfold
  refine ⟨?_, ?_, ?_⟩
  · rw [heq, h1, flatMap_singleton_map]
    simp [runCommand_false]
  · rw [heq, h2]
    simp [runCommand_false]
  · rw [heq, h3]
    simp [runCommand_false]

/-- Executed networks phase: exactly the bare and prefixed removals. -/
theorem clean_networks_issued (rs : ResourceSet) (pns : List String) (o : Outcome) :
    (clean_networks rs pns false o).issued = o.issued ++ networkCmds pns rs.networks ∧
    (clean_networks rs pns false o).announced = o.announced ∧
    (clean_networks rs pns false o).reads = o.reads := by
  refine foldl_exec _ (fun n => .networkRm n :: pns.map (fun p => .networkRm (p ++ "_" ++ n)))
    (fun o n => ?_) rs.networks o
  have heq : cleanNetworkStep pns false o n =
      pns.foldl (fun o p => runCommand o false (.networkRm (p ++ "_" ++ n)))
        (runCommand o false (.networkRm n)) := rfl
  have hfold := foldl_exec
    (fun o p => runCommand o false (.networkRm (p ++ "_" ++ n)))
    (fun p => [.networkRm (p ++ "_" ++ n)])
    (fun o p => by simp [runCommand_false]) pns (runCommand o false (.networkRm n))
  obtain ⟨h1, h2, h3⟩ := hfold
  refine ⟨?_, ?_, ?_⟩
  · rw [heq, h1, flatMap_singleton_map]
    simp [runCommand_false]
  · rw [heq, h2]
    simp [runCommand_false]
  · rw [heq, h3]
    simp [runCommand_false]

/-- Executed project teardown phase: exactly the per-project downs. -/
theorem clean_compose_projects_issued (pns files : List String) (o : Outcome) :
    (clean_compose_projects pns files false o).issued = o.issued ++ downCmds pns files ∧
    (clean_compose_projects pns files false o).announced = o.announced ∧
    (clean_compose_projects pns files false o).reads = o.reads := by
  have hfold := foldl_exec
    (fun o p => runCommand o false (.composeDown p files true))
    (fun p => [.composeDown p files true])
    (fun o p => by simp [runCommand_false]) pns o
  obtain ⟨h1, h2, h3⟩ := hfold
  refine ⟨?_, h2, h3⟩
  show (pns.foldl (fun o p => runCommand o false (.composeDown p files true)) o).issued = _
  rw [h1, flatMap_singleton_map]
  rfl

/-- The executed cleanup sequence unfolded into its five phases. -/
theorem cleanupRun_false_eq (rs : ResourceSet) (pns files : List String)
    (s : DaemonState) :
    cleanupRun rs pns files false s =
      clean_compose_projects pns files false (clean_networks rs pns false
        (clean_volumes rs pns false (clean_images rs false
          (clean_containers rs false (initOutcome s))))) := rfl

/-- The daemon-mutating calls of an executed cleanup run: the container
stop/remove pairs, then force-removals covering every declared image, then
the volume and network removals bare and prefixed, then the per-project
teardowns; nothing is announced. -/
theorem cleanupRun_issued (rs : ResourceSet) (pns files : List String)
    (s : DaemonState) :
    ∃ t : List Cmd,
      (cleanupRun rs pns files false s).issued =
        containerCmds rs.containers ++ t ++ volumeCmds pns rs.volumes ++
          networkCmds pns rs.networks ++ downCmds pns files ∧
      (∀ c ∈ t, ∃ i, c = Cmd.rmi i) ∧ (∀ i ∈ rs.images, Cmd.rmi i ∈ t) ∧
      (cleanupRun rs pns files false s).announced = [] := by
  obtain ⟨hc1, hc2, hc3⟩ := clean_containers_issued rs (initOutcome s)
  obtain ⟨t, hi1, hi2, hi3, hi4⟩ :=
    clean_images_issued rs.images (clean_containers rs false (initOutcome s))
  obtain ⟨hv1, hv2, hv3⟩ := clean_volumes_issued rs pns
    (clean_images rs false (clean_containers rs false (initOutcome s)))
  obtain ⟨hn1, hn2, hn3⟩ := clean_networks_issued rs pns
    (clean_volumes rs pns false (clean_images rs false
      (clean_containers rs false (initOutcome s))))
  obtain ⟨hd1, hd2, hd3⟩ := clean_compose_projects_issued pns files
    (clean_networks rs pns false (clean_volumes rs pns false
      (clean_images rs false (clean_containers rs false (initOutcome s)))))
  have himg : clean_images rs false (clean_containers rs false (initOutcome s)) =
      rs.images.foldl (cleanImageStep false)
        (clean_containers rs false (initOutcome s)) := rfl
  refine ⟨t, ?_, hi2, hi3, ?_⟩
  · rw [cleanupRun_false_eq, hd1, hn1, hv1, himg, hi1, hc1]
    simp [initOutcome, List.append_assoc]
  · rw [cleanupRun_false_eq, hd2, hn2, hv2, himg, hi4, hc2]
    rfl

/-! ## C5: volume and network removal under exactly three names -/

/-- C5: for every volume and network identifier, the executed cleanup
sequence attempts removal under exactly the bare name and the
`{project}_{name}` variant for each of the two known project names `juno`
and `helios` — and, since the command list is the same for every daemon
state `s`, every one of the three attempts is made regardless of whether any
earlier attempt succeeded. -/
theorem volume_network_three_names (rs : ResourceSet) (files : List String)
    (s : DaemonState) :
    project_names = ["juno", "helios"] ∧
    (cleanupRun rs project_names files false s).issued.filter Cmd.isVolumeRm =
      rs.volumes.flatMap
        (fun v => .volumeRm v ::
          project_names.map (fun p => .volumeRm (p ++ "_" ++ v))) ∧
    (cleanupRun rs project_names files false s).issued.filter Cmd.isNetworkRm =
      rs.networks.flatMap
        (fun n => .networkRm n ::
          project_names.map (fun p => .networkRm (p ++ "_" ++ n))) := by
  obtain ⟨t, hI, ht, _, _⟩ := cleanupRun_issued rs project_names files s
  have hcV : (containerCmds rs.containers).filter Cmd.isVolumeRm = [] := by
    rw [List.filter_eq_nil_iff]
    intro c hc
    simp only [containerCmds, List.mem_flatMap] at hc
    obtain ⟨x, _, hx⟩ := hc
    rcases List.mem_cons.1 hx with rfl | hx'
    · simp [Cmd.isVolumeRm]
    · rcases List.mem_singleton.1 hx' with rfl
      simp [Cmd.isVolumeRm]
  have hcN : (containerCmds rs.containers).filter Cmd.isNetworkRm = [] := by
    rw [List.filter_eq_nil_iff]
    intro c hc
    simp only [containerCmds, List.mem_flatMap] at hc
    obtain ⟨x, _, hx⟩ := hc
    rcases List.mem_cons.1 hx with rfl | hx'
    · simp [Cmd.isNetworkRm]
    · rcases List.mem_singleton.1 hx' with rfl
      simp [Cmd.isNetworkRm]
  have htV : t.filter Cmd.isVolumeRm = [] := by
    rw [List.filter_eq_nil_iff]
    intro c hc
    obtain ⟨i, rfl⟩ := ht c hc
    simp [Cmd.isVolumeRm]
  have htN : t.filter Cmd.isNetworkRm = [] := by
    rw [List.filter_eq_nil_iff]
    intro c hc
    obtain ⟨i, rfl⟩ := ht c hc
    simp [Cmd.isNetworkRm]
  have hvV : (volumeCmds project_names rs.volumes).filter Cmd.isVolumeRm =
      volumeCmds project_names rs.volumes := by
    rw [List.filter_eq_self]
    intro c hc
    simp only [volumeCmds, List.mem_flatMap] at hc
    obtain ⟨x, _, hx⟩ := hc
    rcases List.mem_cons.1 hx with rfl | hx'
    · simp [Cmd.isVolumeRm]
    · obtain ⟨p, _, rfl⟩ := List.mem_map.1 hx'
      simp [Cmd.isVolumeRm]
  have hvN : (volumeCmds project_names rs.volumes).filter Cmd.isNetworkRm = [] := by
    rw [List.filter_eq_nil_iff]
    intro c hc
    simp only [volumeCmds, List.mem_flatMap] at hc
    obtain ⟨x, _, hx⟩ := hc
    rcases List.mem_cons.1 hx with rfl | hx'
    · simp [Cmd.isNetworkRm]
    · obtain ⟨p, _, rfl⟩ := List.mem_map.1 hx'
      simp [Cmd.isNetworkRm]
  have hnN : (networkCmds project_names rs.networks).filter Cmd.isNetworkRm =
      networkCmds project_names rs.networks := by
    rw [List.filter_eq_self]
    intro c hc
    simp only [networkCmds, List.mem_flatMap] at hc
    obtain ⟨x, _, hx⟩ := hc
    rcases List.mem_cons.1 hx with rfl | hx'
    · simp [Cmd.isNetworkRm]
    · obtain ⟨p, _, rfl⟩ := List.mem_map.1 hx'
      simp [Cmd.isNetworkRm]
  have hnV : (networkCmds project_names rs.networks).filter Cmd.isVolumeRm = [] := by
    rw [List.filter_eq_nil_iff]
    intro c hc
    simp only [networkCmds, List.mem_flatMap] at hc
    obtain ⟨x, _, hx⟩ := hc
    rcases List.mem_cons.1 hx with rfl | hx'
    · simp [Cmd.isVolumeRm]
    · obtain ⟨p, _, rfl⟩ := List.mem_map.1 hx'
      simp [Cmd.isVolumeRm]
  have hdV : (downCmds project_names files).filter Cmd.isVolumeRm = [] := by
    rw [List.filter_eq_nil_iff]
    intro c hc
    obtain ⟨p, _, rfl⟩ := List.mem_map.1 hc
    simp [Cmd.isVolumeRm]
  have hdN : (downCmds project_names files).filter Cmd.isNetworkRm = [] := by
    rw [List.filter_eq_nil_iff]
    intro c hc
    obtain ⟨p, _, rfl⟩ := List.mem_map.1 hc
    simp [Cmd.isNetworkRm]
  refine ⟨rfl, ?_, ?_⟩
  · rw [hI]
    simp only [List.filter_append, hcV, htV, hvV, hnV, hdV]
    simp [volumeCmds]
  · rw [hI]
    simp only [List.filter_append, hcN, htN, hvN, hnN, hdN]
    simp [networkCmds]

/-! ## C2: dry-run traces -/

/-- A dry cleanup run mutates nothing, issues nothing, reads nothing, and
announces the phase command lists in order; the image tag sweep is skipped,
so only the declared references are announced for removal. -/
theorem cleanupRun_true (rs : ResourceSet) (pns files : List String)
    (s : DaemonState) :
    cleanupRun rs pns files true s =
      { state := s, issued := [],
        announced := containerCmds rs.containers ++ imageAnnounceCmds rs.images ++
          volumeCmds pns rs.volumes ++ networkCmds pns rs.networks ++
          downCmds pns files,
        reads := [] } := by
  have hc := foldl_announce (cleanContainerStep true) (fun c => [.stop c, .rm c])
    (fun o c => by simp [cleanContainerStep, runCommand_true, List.append_assoc])
    rs.containers (initOutcome s)
  have hi := foldl_announce (cleanImageStep true) (fun i => [.rmi i])
    (fun o i => by simp [cleanImageStep, runCommand_true]) rs.images
    (clean_containers rs true (initOutcome s))
  have hv := foldl_announce (cleanVolumeStep pns true)
    (fun v => .volumeRm v :: pns.map (fun p => .volumeRm (p ++ "_" ++ v)))
    (fun o v => by
      have heq : cleanVolumeStep pns true o v =
          pns.foldl (fun o p => runCommand o true (.volumeRm (p ++ "_" ++ v)))
            (runCommand o true (.volumeRm v)) := rfl
      rw [heq, foldl_announce _ (fun p => [.volumeRm (p ++ "_" ++ v)])
        (fun o p => by simp [runCommand_true]) pns]
      simp [runCommand_true, flatMap_singleton_map, List.append_assoc])
    rs.volumes
    (clean_images rs true (clean_containers rs true (initOutcome s)))
  have hn := foldl_announce (cleanNetworkStep pns true)
    (fun n => .networkRm n :: pns.map (fun p => .networkRm (p ++ "_" ++ n)))
    (fun o n => by
      have heq : cleanNetworkStep pns true o n =
          pns.foldl (fun o p => runCommand o true (.networkRm (p ++ "_" ++ n)))
            (runCommand o true (.networkRm n)) := rfl
      rw [heq, foldl_announce _ (fun p => [.networkRm (p ++ "_" ++ n)])
        (fun o p => by simp [runCommand_true]) pns]
      simp [runCommand_true, flatMap_singleton_map, List.append_assoc])
    rs.networks
    (clean_volumes rs pns true (clean_images rs true
      (clean_containers rs true (initOutcome s))))
  have hd := foldl_announce
    (fun o p => runCommand o true (.composeDown p files true))
    (fun p => [.composeDown p files true])
    (fun o p => by simp [runCommand_true]) pns
    (clean_networks rs pns true (clean_volumes rs pns true
      (clean_images rs true (clean_containers rs true (initOutcome s)))))
  have heq : cleanupRun rs pns files true s =
      clean_compose_projects pns files true (clean_networks rs pns true
        (clean_volumes rs pns true (clean_images rs true
          (clean_containers rs true (initOutcome s))))) := rfl
  rw [heq]
  show pns.foldl (fun o p => runCommand o true (.composeDown p files true)) _ = _
  rw [hd]
  rw [show clean_networks rs pns true (clean_volumes rs pns true
      (clean_images rs true (clean_containers rs true (initOutcome s)))) =
      rs.networks.foldl (cleanNetworkStep pns true) (clean_volumes rs pns true
        (clean_images rs true (clean_containers rs true (initOutcome s)))) from rfl,
    hn]
  rw [show clean_volumes rs pns true (clean_images rs true
      (clean_containers rs true (initOutcome s))) =
      rs.volumes.foldl (cleanVolumeStep pns true) (clean_images rs true
        (clean_containers rs true (initOutcome s))) from rfl, hv]
  rw [show clean_images rs true (clean_containers rs true (initOutcome s)) =
      rs.images.foldl (cleanImageStep true)
        (clean_containers rs true (initOutcome s)) from rfl, hi]
  rw [show clean_containers rs true (initOutcome s) =
      rs.containers.foldl (cleanContainerStep true) (initOutcome s) from rfl, hc]
  simp [initOutcome, containerCmds, imageAnnounceCmds, volumeCmds, networkCmds,
    downCmds, flatMap_singleton_map, List.append_assoc]

/-- C2 counterexample: with one declared image and a daemon holding a second
tag of the same repository, execute mode force-removes the second tag, but
dry-run never announces that command — the announced set and the executed
mutating set differ (the claim fails as stated). -/
theorem dryrun_announce_mismatch :
    Cmd.rmi "repo/app:2.0" ∈
      (cleanupRun ⟨[], ["repo/app:1.0"], [], []⟩ project_names [] false
        ⟨[], ["repo/app:1.0", "repo/app:2.0"], [], []⟩).issued ∧
    Cmd.rmi "repo/app:2.0" ∉
      (cleanupRun ⟨[], ["repo/app:1.0"], [], []⟩ project_names [] true
        ⟨[], ["repo/app:1.0", "repo/app:2.0"], [], []⟩).announced := by
  decide

/-- C2 amended: dry-run issues zero daemon-mutating calls and leaves the
daemon state untouched, and every command it announces is also issued by
execute mode against the same daemon state; however execute mode may issue
additional force-removals (`docker rmi -f`) derived from its tag
enumeration, which dry-run does not announce. -/
theorem dryrun_announce_vs_issued (rs : ResourceSet) (pns files : List String)
    (s : DaemonState) :
    (cleanupRun rs pns files true s).issued = [] ∧
    (cleanupRun rs pns files true s).state = s ∧
    (∀ c ∈ (cleanupRun rs pns files true s).announced,
      c ∈ (cleanupRun rs pns files false s).issued) ∧
    (∀ c ∈ (cleanupRun rs pns files false s).issued,
      c ∉ (cleanupRun rs pns files true s).announced → ∃ i, c = Cmd.rmi i) := by
  obtain ⟨t, hI, ht, htAll, _⟩ := cleanupRun_issued rs pns files s
  rw [cleanupRun_true rs pns files s]
  refine ⟨rfl, rfl, ?_, ?_⟩
  · intro c hc
    rw [hI]
    simp only [List.mem_append] at hc ⊢
    rcases hc with ((((hc | hc) | hc) | hc) | hc)
    · exact Or.inl (Or.inl (Or.inl (Or.inl hc)))
    · obtain ⟨i, hi, rfl⟩ := List.mem_map.1 hc
      exact Or.inl (Or.inl (Or.inl (Or.inr (htAll i hi))))
    · exact Or.inl (Or.inl (Or.inr hc))
    · exact Or.inl (Or.inr hc)
    · exact Or.inr hc
  · intro c hc hnot
    rw [hI] at hc
    simp only [List.mem_append] at hc hnot
    rcases hc with ((((hc | hc) | hc) | hc) | hc)
    · exact absurd (Or.inl (Or.inl (Or.inl (Or.inl hc)))) hnot
    · exact ht c hc
    · exact absurd (Or.inl (Or.inl (Or.inr hc))) hnot
    · exact absurd (Or.inl (Or.inr hc)) hnot
    · exact absurd (Or.inr hc) hnot

/-- Witness for the amended C2 theorem at a concrete input. -/
theorem dryrun_announce_vs_issued_witness :
    Cmd.composeDown "juno" [] true ∈
      (cleanupRun ⟨[], [], ["data"], []⟩ project_names [] false
        ⟨[], [], [], []⟩).issued :=
  (dryrun_announce_vs_issued ⟨[], [], ["data"], []⟩ project_names []
    ⟨[], [], [], []⟩).2.2.1 _ (by decide)

/-- A fold over outcomes whose step's state effect factors through the state
computes that state fold. -/
theorem foldl_state {α : Type} (f : Outcome → α → Outcome)
    (g : DaemonState → α → DaemonState) (h : ∀ o a, (f o a).state = g o.state a) :
    ∀ (l : List α) (o : Outcome), (l.foldl f o).state = l.foldl g o.state
  | [], _ => rfl
  | a :: l, o => by rw [List.foldl_cons, List.foldl_cons, foldl_state f g h l, h]

/-- The state of an executed image step factors through the state. -/
theorem cleanImageStep_state (o : Outcome) (i : String) :
    (cleanImageStep false o i).state = imageStateStep o.state i := by
  rw [cleanImageStep_false_eq]
  have h := foldl_state (fun o t => runCommand o false (.rmi t))
    (fun s t => execCmd s (.rmi t)) (fun o t => rfl)
    ((listRepoTags (runRead (runCommand o false (.rmi i))
      (.imagesByRepo (repoOf i))).state (repoOf i)).filter (fun t => t != ""))
    (runRead (runCommand o false (.rmi i)) (.imagesByRepo (repoOf i)))
  rw [h]
  rfl

/-- The end state of an executed cleanup run is `cleanupState`. -/
theorem cleanupRun_state (rs : ResourceSet) (pns files : List String)
    (s : DaemonState) :
    (cleanupRun rs pns files false s).state = cleanupState rs pns s := by
  rw [cleanupRun_false_eq]
  rw [show clean_compose_projects pns files false (clean_networks rs pns false
      (clean_volumes rs pns false (clean_images rs false
        (clean_containers rs false (initOutcome s))))) =
    pns.foldl (fun o p => runCommand o false (.composeDown p files true))
      (clean_networks rs pns false (clean_volumes rs pns false
        (clean_images rs false (clean_containers rs false (initOutcome s)))))
    from rfl]
  rw [foldl_state (fun o p => runCommand o false (.composeDown p files true))
    downStateStep (fun o p => rfl)]
  rw [show clean_networks rs pns false (clean_volumes rs pns false
      (clean_images rs false (clean_containers rs false (initOutcome s)))) =
    rs.networks.foldl (cleanNetworkStep pns false) (clean_volumes rs pns false
      (clean_images rs false (clean_containers rs false (initOutcome s))))
    from rfl]
  rw [foldl_state (cleanNetworkStep pns false) (networkStateStep pns)
    (fun o n => by
      have heq : cleanNetworkStep pns false o n =
          pns.foldl (fun o p => runCommand o false (.networkRm (p ++ "_" ++ n)))
            (runCommand o false (.networkRm n)) := rfl
      rw [heq, foldl_state (fun o p => runCommand o false (.networkRm (p ++ "_" ++ n)))
        (fun s p => execCmd s (.networkRm (p ++ "_" ++ n))) (fun o p => rfl)]
      rfl)]
  rw [show clean_volumes rs pns false (clean_images rs false
      (clean_containers rs false (initOutcome s))) =
    rs.volumes.foldl (cleanVolumeStep pns false) (clean_images rs false
      (clean_containers rs false (initOutcome s))) from rfl]
  rw [foldl_state (cleanVolumeStep pns false) (volumeStateStep pns)
    (fun o v => by
      have heq : cleanVolumeStep pns false o v =
          pns.foldl (fun o p => runCommand o false (.volumeRm (p ++ "_" ++ v)))
            (runCommand o false (.volumeRm v)) := rfl
      rw [heq, foldl_state (fun o p => runCommand o false (.volumeRm (p ++ "_" ++ v)))
        (fun s p => execCmd s (.volumeRm (p ++ "_" ++ v))) (fun o p => rfl)]
      rfl)]
  rw [show clean_images rs false (clean_containers rs false (initOutcome s)) =
    rs.images.foldl (cleanImageStep false)
      (clean_containers rs false (initOutcome s)) from rfl]
  rw [foldl_state (cleanImageStep false) imageStateStep cleanImageStep_state]
  rw [show clean_containers rs false (initOutcome s) =
    rs.containers.foldl (cleanContainerStep false) (initOutcome s) from rfl]
  rw [foldl_state (cleanContainerStep false) containerStateStep (fun o c => rfl)]
  rfl

theorem Shrinks.refl (s : DaemonState) : Shrinks s s :=
  ⟨fun _ h => h, fun _ h => h, fun _ h => h, fun _ h => h⟩

theorem Shrinks.trans {s2 s1 s0 : DaemonState} (h2 : Shrinks s2 s1)
    (h1 : Shrinks s1 s0) : Shrinks s2 s0 :=
  ⟨fun x hx => h1.1 x (h2.1 x hx), fun x hx => h1.2.1 x (h2.2.1 x hx),
   fun x hx => h1.2.2.1 x (h2.2.2.1 x hx), fun x hx => h1.2.2.2 x (h2.2.2.2 x hx)⟩

/-- Every daemon command only removes resources. -/
theorem execCmd_shrinks (s : DaemonState) (c : Cmd) : Shrinks (execCmd s c) s := by
  cases c with
  | stop n =>
    refine ⟨?_, fun x hx => hx, fun x hx => hx, fun x hx => hx⟩
    intro x hx
    simp only [cnp, execCmd, stopExec, List.mem_map] at hx ⊢
    obtain ⟨cc, ⟨c0, hc0, rfl⟩, rfl⟩ := hx
    refine ⟨c0, hc0, ?_⟩
    by_cases h : c0.name = n <;> simp [h]
  | rm n =>
    refine ⟨?_, fun x hx => hx, fun x hx => hx, fun x hx => hx⟩
    intro x hx
    simp only [cnp, execCmd, rmExec, List.mem_map] at hx ⊢
    obtain ⟨cc, hcc, rfl⟩ := hx
    exact ⟨cc, List.mem_of_mem_filter hcc, rfl⟩
  | rmi i =>
    exact ⟨fun x hx => hx, fun x hx => List.mem_of_mem_filter hx,
      fun x hx => hx, fun x hx => hx⟩
  | volumeRm v =>
    exact ⟨fun x hx => hx, fun x hx => hx,
      fun x hx => List.mem_of_mem_filter hx, fun x hx => hx⟩
  | networkRm n =>
    exact ⟨fun x hx => hx, fun x hx => hx, fun x hx => hx,
      fun x hx => List.mem_of_mem_filter hx⟩
  | composeDown p files rv =>
    refine ⟨?_, fun x hx => hx, ?_, ?_⟩
    · intro x hx
      simp only [cnp, execCmd, composeDownExec, List.mem_map] at hx ⊢
      obtain ⟨cc, hcc, rfl⟩ := hx
      exact ⟨cc, List.mem_of_mem_filter hcc, rfl⟩
    · intro x hx
      simp only [execCmd, composeDownExec] at hx
      by_cases h : rv = true
      · rw [if_pos h] at hx
        exact List.mem_of_mem_filter hx
      · rwa [if_neg h] at hx
    · intro x hx
      exact List.mem_of_mem_filter hx
  | composeConfig p files => exact Shrinks.refl s
  | imagesByRepo r => exact Shrinks.refl s
  | imagesList => exact Shrinks.refl s
  | psAll => exact Shrinks.refl s
  | volumeList => exact Shrinks.refl s
  | networkList => exact Shrinks.refl s
  | imagePrune => exact Shrinks.refl s

/-- A fold of shrinking steps shrinks. -/
theorem foldl_shrinks {α : Type} (g : DaemonState → α → DaemonState)
    (h : ∀ s a, Shrinks (g s a) s) :
    ∀ (l : List α) (s : DaemonState), Shrinks (l.foldl g s) s
  | [], s => Shrinks.refl s
  | a :: l, s => (foldl_shrinks g h l (g s a)).trans (h s a)

/-- An establish-and-preserve induction for state folds: when each step
shrinks the state, establishes its own element's property, and the property
is stable under shrinking, the fold establishes it for every element. -/
theorem foldl_establish {α : Type} (g : DaemonState → α → DaemonState)
    (P : α → DaemonState → Prop) (hshr : ∀ s a, Shrinks (g s a) s)
    (hstable : ∀ a s' s, Shrinks s' s → P a s → P a s')
    (hest : ∀ s a, P a (g s a)) :
    ∀ (l : List α) (s : DaemonState), ∀ a ∈ l, P a (l.foldl g s)
  | b :: l, s, a, ha => by
    rcases List.mem_cons.1 ha with rfl | ha'
    · exact hstable a _ _ (foldl_shrinks g hshr l (g s a)) (hest s a)
    · exact foldl_establish g P hshr hstable hest l (g s b) a ha'

/-- Shrink-stability for each phase step. -/
theorem containerStateStep_shrinks (s : DaemonState) (c : String) :
    Shrinks (containerStateStep s c) s :=
  (execCmd_shrinks _ (.rm c)).trans (execCmd_shrinks s (.stop c))

theorem imageStateStep_shrinks (s : DaemonState) (i : String) :
    Shrinks (imageStateStep s i) s :=
  (foldl_shrinks _ (fun s t => execCmd_shrinks s (.rmi t)) _ _).trans
    (execCmd_shrinks s (.rmi i))

theorem volumeStateStep_shrinks (pns : List String) (s : DaemonState) (v : String) :
    Shrinks (volumeStateStep pns s v) s :=
  (foldl_shrinks _ (fun s p => execCmd_shrinks s (.volumeRm (p ++ "_" ++ v))) pns
    _).trans (execCmd_shrinks s (.volumeRm v))

theorem networkStateStep_shrinks (pns : List String) (s : DaemonState) (n : String) :
    Shrinks (networkStateStep pns s n) s :=
  (foldl_shrinks _ (fun s p => execCmd_shrinks s (.networkRm (p ++ "_" ++ n))) pns
    _).trans (execCmd_shrinks s (.networkRm n))

theorem downStateStep_shrinks (s : DaemonState) (p : String) :
    Shrinks (downStateStep s p) s :=
  execCmd_shrinks s (.composeDown p [] true)

theorem noContainerNamed_stable {s' s : DaemonState} {n : String}
    (hs : Shrinks s' s) (h : noContainerNamed s n) : noContainerNamed s' n :=
  fun x hx => h x (hs.1 x hx)

theorem noRepoTagExceptEmpty_stable {s' s : DaemonState} {b : String}
    (hs : Shrinks s' s) (h : noRepoTagExceptEmpty s b) :
    noRepoTagExceptEmpty s' b :=
  fun r hr => h r (hs.2.1 r hr)

theorem noImage_stable {s' s : DaemonState} {i : String}
    (hs : Shrinks s' s) (h : i ∉ s.images) : i ∉ s'.images :=
  fun hi => h (hs.2.1 i hi)

theorem noVolumeNamed_stable {s' s : DaemonState} {n : String}
    (hs : Shrinks s' s) (h : noVolumeNamed s n) : noVolumeNamed s' n :=
  fun v hv => h v (hs.2.2.1 v hv)

theorem noNetworkNamed_stable {s' s : DaemonState} {n : String}
    (hs : Shrinks s' s) (h : noNetworkNamed s n) : noNetworkNamed s' n :=
  fun v hv => h v (hs.2.2.2 v hv)

theorem noProject_stable {s' s : DaemonState} {p : String}
    (hs : Shrinks s' s) (h : noProject s p) : noProject s' p :=
  ⟨fun x hx => h.1 x (hs.1 x hx), fun v hv => h.2.1 v (hs.2.2.1 v hv),
   fun v hv => h.2.2 v (hs.2.2.2 v hv)⟩

/-! Establishment: each phase step makes its own targets absent. -/

theorem containerStateStep_removes (s : DaemonState) (c : String) :
    noContainerNamed (containerStateStep s c) c := by
  intro x hx
  simp only [containerStateStep, execCmd, rmExec, stopExec, cnp, List.mem_map] at hx
  obtain ⟨cc, hcc, rfl⟩ := hx
  rw [List.mem_filter] at hcc
  obtain ⟨hmem, hpred⟩ := hcc
  obtain ⟨c0, hc0, rfl⟩ := List.mem_map.1 hmem
  by_cases h : c0.name = c
  · simp [h] at hpred
  · simp only [if_neg h]
    exact h

theorem rmiExec_removes (s : DaemonState) (i : String) :
    i ∉ (execCmd s (.rmi i)).images := by
  intro hi
  simp only [execCmd, rmiExec] at hi
  rw [List.mem_filter] at hi
  simp at hi

theorem rmi_fold_removes (L : List String) (s : DaemonState) :
    ∀ x ∈ L, x ∉ (L.foldl (fun s t => execCmd s (.rmi t)) s).images :=
  foldl_establish _ (fun x s => x ∉ s.images)
    (fun s t => execCmd_shrinks s (.rmi t))
    (fun _ _ _ hs h => noImage_stable hs h)
    (fun s a => rmiExec_removes s a) L s

theorem imageStateStep_removes (s : DaemonState) (i : String) :
    i ∉ (imageStateStep s i).images ∧
      noRepoTagExceptEmpty (imageStateStep s i) (repoOf i) := by
  constructor
  · exact noImage_stable
      (foldl_shrinks _ (fun s t => execCmd_shrinks s (.rmi t)) _ _)
      (rmiExec_removes s i)
  · intro r hr hrepo
    by_contra hne
    have hr1 : r ∈ (execCmd s (.rmi i)).images :=
      (foldl_shrinks _ (fun s t => execCmd_shrinks s (.rmi t)) _ _).2.1 r hr
    have hmemtags : r ∈ (listRepoTags (execCmd s (.rmi i)) (repoOf i)).filter
        (fun t => t != "") := by
      rw [List.mem_filter]
      refine ⟨?_, by simpa using hne⟩
      simp [listRepoTags, List.mem_filter, hr1, hrepo]
    exact rmi_fold_removes _ _ r hmemtags hr

theorem volumeRmExec_removes (s : DaemonState) (v : String) :
    noVolumeNamed (execCmd s (.volumeRm v)) v := by
  intro x hx
  simp only [execCmd, volumeRmExec] at hx
  rw [List.mem_filter] at hx
  simpa using hx.2

theorem networkRmExec_removes (s : DaemonState) (n : String) :
    noNetworkNamed (execCmd s (.networkRm n)) n := by
  intro x hx
  simp only [execCmd, networkRmExec] at hx
  rw [List.mem_filter] at hx
  simpa using hx.2

theorem volumeStateStep_removes (pns : List String) (s : DaemonState) (v : String) :
    noVolumeNamed (volumeStateStep pns s v) v ∧
      ∀ p ∈ pns, noVolumeNamed (volumeStateStep pns s v) (p ++ "_" ++ v) := by
  constructor
  · exact noVolumeNamed_stable
      (foldl_shrinks _ (fun s p => execCmd_shrinks s (.volumeRm (p ++ "_" ++ v)))
        pns _) (volumeRmExec_removes s v)
  · exact foldl_establish _ (fun p s => noVolumeNamed s (p ++ "_" ++ v))
      (fun s p => execCmd_shrinks s (.volumeRm (p ++ "_" ++ v)))
      (fun _ _ _ hs h => noVolumeNamed_stable hs h)
      (fun s p => volumeRmExec_removes s (p ++ "_" ++ v)) pns _

theorem networkStateStep_removes (pns : List String) (s : DaemonState) (n : String) :
    noNetworkNamed (networkStateStep pns s n) n ∧
      ∀ p ∈ pns, noNetworkNamed (networkStateStep pns s n) (p ++ "_" ++ n) := by
  constructor
  · exact noNetworkNamed_stable
      (foldl_shrinks _ (fun s p => execCmd_shrinks s (.networkRm (p ++ "_" ++ n)))
        pns _) (networkRmExec_removes s n)
  · exact foldl_establish _ (fun p s => noNetworkNamed s (p ++ "_" ++ n))
      (fun s p => execCmd_shrinks s (.networkRm (p ++ "_" ++ n)))
      (fun _ _ _ hs h => noNetworkNamed_stable hs h)
      (fun s p => networkRmExec_removes s (p ++ "_" ++ n)) pns _

theorem downStateStep_removes (s : DaemonState) (p : String) :
    noProject (downStateStep s p) p := by
  refine ⟨?_, ?_, ?_⟩
  · intro x hx
    simp only [downStateStep, composeDownExec, cnp, List.mem_map] at hx
    obtain ⟨cc, hcc, rfl⟩ := hx
    rw [List.mem_filter] at hcc
    simpa using hcc.2
  · intro x hx
    simp only [downStateStep, composeDownExec, if_true] at hx
    rw [List.mem_filter] at hx
    simpa using hx.2
  · intro x hx
    simp only [downStateStep, composeDownExec] at hx
    rw [List.mem_filter] at hx
    simpa using hx.2

/-- After one executed cleanup, every removal target is absent. -/
theorem cleanupState_facts (rs : ResourceSet) (pns : List String)
    (s : DaemonState) : FactsAll rs pns (cleanupState rs pns s) := by
  have h1 := foldl_establish containerStateStep (fun c s => noContainerNamed s c)
    containerStateStep_shrinks (fun _ _ _ hs h => noContainerNamed_stable hs h)
    containerStateStep_removes rs.containers s
  have h2 := foldl_establish imageStateStep
    (fun i s => i ∉ s.images ∧ noRepoTagExceptEmpty s (repoOf i))
    imageStateStep_shrinks
    (fun _ _ _ hs h => ⟨noImage_stable hs h.1, noRepoTagExceptEmpty_stable hs h.2⟩)
    imageStateStep_removes rs.images (rs.containers.foldl containerStateStep s)
  have h3 := foldl_establish (volumeStateStep pns)
    (fun v s => noVolumeNamed s v ∧ ∀ p ∈ pns, noVolumeNamed s (p ++ "_" ++ v))
    (volumeStateStep_shrinks pns)
    (fun _ _ _ hs h => ⟨noVolumeNamed_stable hs h.1,
      fun p hp => noVolumeNamed_stable hs (h.2 p hp)⟩)
    (volumeStateStep_removes pns) rs.volumes
    (rs.images.foldl imageStateStep (rs.containers.foldl containerStateStep s))
  have h4 := foldl_establish (networkStateStep pns)
    (fun n s => noNetworkNamed s n ∧ ∀ p ∈ pns, noNetworkNamed s (p ++ "_" ++ n))
    (networkStateStep_shrinks pns)
    (fun _ _ _ hs h => ⟨noNetworkNamed_stable hs h.1,
      fun p hp => noNetworkNamed_stable hs (h.2 p hp)⟩)
    (networkStateStep_removes pns) rs.networks
    (rs.volumes.foldl (volumeStateStep pns)
      (rs.images.foldl imageStateStep (rs.containers.foldl containerStateStep s)))
  have h5 := foldl_establish downStateStep (fun p s => noProject s p)
    downStateStep_shrinks (fun _ _ _ hs h => noProject_stable hs h)
    downStateStep_removes pns
    (rs.networks.foldl (networkStateStep pns)
      (rs.volumes.foldl (volumeStateStep pns)
        (rs.images.foldl imageStateStep
          (rs.containers.foldl containerStateStep s))))
  have shi := foldl_shrinks imageStateStep imageStateStep_shrinks rs.images
    (rs.containers.foldl containerStateStep s)
  have shv := foldl_shrinks (volumeStateStep pns) (volumeStateStep_shrinks pns)
    rs.volumes
    (rs.images.foldl imageStateStep (rs.containers.foldl containerStateStep s))
  have shn := foldl_shrinks (networkStateStep pns) (networkStateStep_shrinks pns)
    rs.networks
    (rs.volumes.foldl (volumeStateStep pns)
      (rs.images.foldl imageStateStep (rs.containers.foldl containerStateStep s)))
  have shd := foldl_shrinks downStateStep downStateStep_shrinks pns
    (rs.networks.foldl (networkStateStep pns)
      (rs.volumes.foldl (volumeStateStep pns)
        (rs.images.foldl imageStateStep
          (rs.containers.foldl containerStateStep s))))
  refine ⟨?_, ?_, ?_, ?_, h5⟩
  · exact fun c hc => noContainerNamed_stable
      (shd.trans (shn.trans (shv.trans shi))) (h1 c hc)
  · exact fun i hi => ⟨noImage_stable (shd.trans (shn.trans shv)) (h2 i hi).1,
      noRepoTagExceptEmpty_stable (shd.trans (shn.trans shv)) (h2 i hi).2⟩
  · exact fun v hv => ⟨noVolumeNamed_stable (shd.trans shn) (h3 v hv).1,
      fun p hp => noVolumeNamed_stable (shd.trans shn) ((h3 v hv).2 p hp)⟩
  · exact fun n hn => ⟨noNetworkNamed_stable shd (h4 n hn).1,
      fun p hp => noNetworkNamed_stable shd ((h4 n hn).2 p hp)⟩

/-! Identity: a removal whose target is absent leaves the state unchanged. -/

/-- Mapping a function that fixes every member is the identity. -/
theorem map_id_of {α : Type} (l : List α) (f : α → α) (h : ∀ a ∈ l, f a = a) :
    l.map f = l := by
  induction l with
  | nil => rfl
  | cons a l ih =>
    rw [List.map_cons, h a (List.mem_cons_self a l),
      ih (fun x hx => h x (List.mem_cons_of_mem a hx))]

/-- A fold whose every step fixes the state is the identity. -/
theorem foldl_id {α : Type} (g : DaemonState → α → DaemonState) :
    ∀ (l : List α) (s : DaemonState), (∀ a ∈ l, g s a = s) → l.foldl g s = s
  | [], _, _ => rfl
  | a :: l, s, h => by
    rw [List.foldl_cons, h a (List.mem_cons_self a l),
      foldl_id g l s (fun x hx => h x (List.mem_cons_of_mem a hx))]

theorem stopExec_id {s : DaemonState} {n : String} (h : noContainerNamed s n) :
    execCmd s (.stop n) = s := by
  have hmap : s.containers.map
      (fun c => if c.name = n then { c with running := false } else c) =
      s.containers := by
    refine map_id_of _ _ (fun a ha => ?_)
    have hne : a.name ≠ n :=
      h (a.name, a.project) (List.mem_map.2 ⟨a, ha, rfl⟩)
    rw [if_neg hne]
  show { s with containers := _ } = s
  rw [hmap]

theorem rmExec_id {s : DaemonState} {n : String} (h : noContainerNamed s n) :
    execCmd s (.rm n) = s := by
  have hfil : s.containers.filter (fun c => !(c.name == n && !c.running)) =
      s.containers := by
    rw [List.filter_eq_self]
    intro a ha
    have hne : a.name ≠ n :=
      h (a.name, a.project) (List.mem_map.2 ⟨a, ha, rfl⟩)
    simp [hne]
  show { s with containers := _ } = s
  rw [hfil]

theorem rmiExec_id {s : DaemonState} {i : String} (h : i ∉ s.images) :
    execCmd s (.rmi i) = s := by
  have hfil : s.images.filter (fun r => r != i) = s.images := by
    rw [List.filter_eq_self]
    intro r hr
    have : r ≠ i := fun he => h (he ▸ hr)
    simpa using this
  show { s with images := _ } = s
  rw [hfil]

theorem volumeRmExec_id {s : DaemonState} {n : String} (h : noVolumeNamed s n) :
    execCmd s (.volumeRm n) = s := by
  have hfil : s.volumes.filter (fun v => v.name != n) = s.volumes := by
    rw [List.filter_eq_self]
    intro v hv
    simpa using h v hv
  show { s with volumes := _ } = s
  rw [hfil]

theorem networkRmExec_id {s : DaemonState} {n : String} (h : noNetworkNamed s n) :
    execCmd s (.networkRm n) = s := by
  have hfil : s.networks.filter (fun v => v.name != n) = s.networks := by
    rw [List.filter_eq_self]
    intro v hv
    simpa using h v hv
  show { s with networks := _ } = s
  rw [hfil]

theorem downStateStep_id {s : DaemonState} {p : String} (h : noProject s p) :
    downStateStep s p = s := by
  have hc : s.containers.filter (fun c => c.project != some p) = s.containers := by
    rw [List.filter_eq_self]
    intro c hc
    simpa using h.1 (c.name, c.project) (List.mem_map.2 ⟨c, hc, rfl⟩)
  have hv : s.volumes.filter (fun v => v.project != some p) = s.volumes := by
    rw [List.filter_eq_self]
    intro v hv
    simpa using h.2.1 v hv
  have hn : s.networks.filter (fun v => v.project != some p) = s.networks := by
    rw [List.filter_eq_self]
    intro v hv
    simpa using h.2.2 v hv
  show { s with containers := _, networks := _, volumes := _ } = s
  rw [hc, hv, hn]
  simp

theorem containerStateStep_id {s : DaemonState} {c : String}
    (h : noContainerNamed s c) : containerStateStep s c = s := by
  rw [containerStateStep, stopExec_id h, rmExec_id h]

/-- With the declared reference absent and only empty-named tags left in its
repository, the tag list the sweep would remove is empty. -/
theorem tags_nil_of_facts {s : DaemonState} {i : String}
    (h2 : noRepoTagExceptEmpty s (repoOf i)) :
    (listRepoTags s (repoOf i)).filter (fun t => t != "") = [] := by
  rw [List.filter_eq_nil_iff]
  intro t ht
  obtain ⟨htm, htr⟩ := List.mem_filter.1 ht
  have ht0 : t = "" := h2 t htm (by simpa using htr)
  simp [ht0]

theorem imageStateStep_id {s : DaemonState} {i : String} (h1 : i ∉ s.images)
    (h2 : noRepoTagExceptEmpty s (repoOf i)) : imageStateStep s i = s := by
  show ((listRepoTags (execCmd s (.rmi i)) (repoOf i)).filter
      (fun t => t != "")).foldl (fun s t => execCmd s (.rmi t))
      (execCmd s (.rmi i)) = s
  rw [rmiExec_id h1, tags_nil_of_facts h2]
  rfl

theorem volumeStateStep_id {pns : List String} {s : DaemonState} {v : String}
    (hb : noVolumeNamed s v) (hp : ∀ p ∈ pns, noVolumeNamed s (p ++ "_" ++ v)) :
    volumeStateStep pns s v = s := by
  show pns.foldl (fun s p => execCmd s (.volumeRm (p ++ "_" ++ v)))
    (execCmd s (.volumeRm v)) = s
  rw [volumeRmExec_id hb]
  exact foldl_id _ pns s (fun p hpin => volumeRmExec_id (hp p hpin))

theorem networkStateStep_id {pns : List String} {s : DaemonState} {n : String}
    (hb : noNetworkNamed s n) (hp : ∀ p ∈ pns, noNetworkNamed s (p ++ "_" ++ n)) :
    networkStateStep pns s n = s := by
  show pns.foldl (fun s p => execCmd s (.networkRm (p ++ "_" ++ n)))
    (execCmd s (.networkRm n)) = s
  rw [networkRmExec_id hb]
  exact foldl_id _ pns s (fun p hpin => networkRmExec_id (hp p hpin))

/-- When every target is already absent, a second cleanup leaves the daemon
state exactly as it was. -/
theorem cleanupState_id {rs : ResourceSet} {pns : List String} {s : DaemonState}
    (h : FactsAll rs pns s) : cleanupState rs pns s = s := by
  obtain ⟨f1, f2, f3, f4, f5⟩ := h
  rw [cleanupState,
    foldl_id containerStateStep rs.containers s
      (fun c hc => containerStateStep_id (f1 c hc)),
    foldl_id imageStateStep rs.images s
      (fun i hi => imageStateStep_id (f2 i hi).1 (f2 i hi).2),
    foldl_id (volumeStateStep pns) rs.volumes s
      (fun v hv => volumeStateStep_id (f3 v hv).1 (f3 v hv).2),
    foldl_id (networkStateStep pns) rs.networks s
      (fun n hn => networkStateStep_id (f4 n hn).1 (f4 n hn).2),
    foldl_id downStateStep pns s (fun p hp => downStateStep_id (f5 p hp))]

/-- With its targets absent, an executed image step only force-removes the
declared reference and performs the tag listing; the state is unchanged. -/
theorem cleanImageStep_of_facts {o : Outcome} {i : String}
    (h1 : i ∉ o.state.images) (h2 : noRepoTagExceptEmpty o.state (repoOf i)) :
    cleanImageStep false o i =
      { o with issued := o.issued ++ [Cmd.rmi i],
               reads := o.reads ++ [Cmd.imagesByRepo (repoOf i)] } := by
  rw [cleanImageStep_false_eq]
  have hbase : runRead (runCommand o false (.rmi i)) (.imagesByRepo (repoOf i)) =
      { o with issued := o.issued ++ [Cmd.rmi i],
               reads := o.reads ++ [Cmd.imagesByRepo (repoOf i)] } := by
    rw [runCommand_false]
    simp [runRead, rmiExec_id h1]
  rw [hbase]
  show ((listRepoTags o.state (repoOf i)).filter (fun t => t != "")).foldl
    (fun o t => runCommand o false (.rmi t))
    { o with issued := o.issued ++ [Cmd.rmi i],
             reads := o.reads ++ [Cmd.imagesByRepo (repoOf i)] } = _
  rw [tags_nil_of_facts h2]
  rfl

/-- With all its targets absent, the executed images phase issues exactly
one force-removal per declared reference and leaves the state unchanged. -/
theorem clean_images_of_facts (l : List String) :
    ∀ o : Outcome,
      (∀ i ∈ l, i ∉ o.state.images ∧ noRepoTagExceptEmpty o.state (repoOf i)) →
      (l.foldl (cleanImageStep false) o).issued = o.issued ++ l.map Cmd.rmi ∧
      (l.foldl (cleanImageStep false) o).state = o.state ∧
      (l.foldl (cleanImageStep false) o).announced = o.announced := by
  induction l with
  | nil => exact fun o _ => ⟨by simp, rfl, rfl⟩
  | cons i l ih =>
    intro o h
    have hi := h i (List.mem_cons_self i l)
    have hstep := cleanImageStep_of_facts hi.1 hi.2
    have hrest := ih (cleanImageStep false o i) (by
      rw [hstep]
      exact fun j hj => h j (List.mem_cons_of_mem i hj))
    refine ⟨?_, ?_, ?_⟩
    · rw [List.foldl_cons, hrest.1, hstep]
      simp [List.append_assoc]
    · rw [List.foldl_cons, hrest.2.1, hstep]
    · rw [List.foldl_cons, hrest.2.2, hstep]

/-- With every target absent, an executed cleanup changes nothing and issues
exactly the five state-independent phase command lists. -/
theorem cleanupRun_of_facts (rs : ResourceSet) (pns files : List String)
    (S : DaemonState) (h : FactsAll rs pns S) :
    (cleanupRun rs pns files false S).state = S ∧
    (cleanupRun rs pns files false S).issued =
      containerCmds rs.containers ++ imageAnnounceCmds rs.images ++
        volumeCmds pns rs.volumes ++ networkCmds pns rs.networks ++
        downCmds pns files := by
  have hcstate : (clean_containers rs false (initOutcome S)).state = S := by
    rw [show clean_containers rs false (initOutcome S) =
      rs.containers.foldl (cleanContainerStep false) (initOutcome S) from rfl,
      foldl_state (cleanContainerStep false) containerStateStep (fun o c => rfl)]
    exact foldl_id _ _ _ (fun c hc => containerStateStep_id (h.1 c hc))
  obtain ⟨hc1, hc2, hc3⟩ := clean_containers_issued rs (initOutcome S)
  have himg := clean_images_of_facts rs.images
    (clean_containers rs false (initOutcome S))
    (by rw [hcstate]; exact h.2.1)
  obtain ⟨hv1, hv2, hv3⟩ := clean_volumes_issued rs pns
    (clean_images rs false (clean_containers rs false (initOutcome S)))
  obtain ⟨hn1, hn2, hn3⟩ := clean_networks_issued rs pns
    (clean_volumes rs pns false (clean_images rs false
      (clean_containers rs false (initOutcome S))))
  obtain ⟨hd1, hd2, hd3⟩ := clean_compose_projects_issued pns files
    (clean_networks rs pns false (clean_volumes rs pns false
      (clean_images rs false (clean_containers rs false (initOutcome S)))))
  constructor
  · rw [cleanupRun_state]
    exact cleanupState_id h
  · rw [cleanupRun_false_eq, hd1, hn1, hv1]
    rw [show clean_images rs false (clean_containers rs false (initOutcome S)) =
      rs.images.foldl (cleanImageStep false)
        (clean_containers rs false (initOutcome S)) from rfl, himg.1, hc1]
    simp [initOutcome, imageAnnounceCmds, List.append_assoc]

/-- C1: running the full cleanup sequence (`clean_containers`,
`clean_images`, `clean_volumes`, `clean_networks`,
`clean_compose_projects`) twice in succession produces the same daemon end
state as running it once, and every daemon-mutating call of the second run
targets a resource that is already absent — so the second run causes no
daemon-observable change and cannot fail because the first run already
removed a target. -/
theorem cleanup_idempotent (rs : ResourceSet) (pns files : List String)
    (s : DaemonState) :
    (cleanupRun rs pns files false
      ((cleanupRun rs pns files false s).state)).state =
      (cleanupRun rs pns files false s).state ∧
    ∀ c ∈ (cleanupRun rs pns files false
        ((cleanupRun rs pns files false s).state)).issued,
      targetAbsent ((cleanupRun rs pns files false s).state) c := by
  have hfacts : FactsAll rs pns ((cleanupRun rs pns files false s).state) := by
    rw [cleanupRun_state]
    exact cleanupState_facts rs pns s
  obtain ⟨hstate, hissued⟩ := cleanupRun_of_facts rs pns files _ hfacts
  refine ⟨hstate, ?_⟩
  intro c hc
  rw [hissued] at hc
  obtain ⟨f1, f2, f3, f4, f5⟩ := hfacts
  simp only [List.mem_append] at hc
  rcases hc with ((((hc | hc) | hc) | hc) | hc)
  · simp only [containerCmds, List.mem_flatMap] at hc
    obtain ⟨x, hx, hm⟩ := hc
    rcases List.mem_cons.1 hm with rfl | hm'
    · exact f1 x hx
    · rcases List.mem_singleton.1 hm' with rfl
      exact f1 x hx
  · obtain ⟨i, hi, rfl⟩ := List.mem_map.1 hc
    exact (f2 i hi).1
  · simp only [volumeCmds, List.mem_flatMap] at hc
    obtain ⟨v, hv, hm⟩ := hc
    rcases List.mem_cons.1 hm with rfl | hm'
    · exact (f3 v hv).1
    · obtain ⟨p, hp, rfl⟩ := List.mem_map.1 hm'
      exact (f3 v hv).2 p hp
  · simp only [networkCmds, List.mem_flatMap] at hc
    obtain ⟨n, hn, hm⟩ := hc
    rcases List.mem_cons.1 hm with rfl | hm'
    · exact (f4 n hn).1
    · obtain ⟨p, hp, rfl⟩ := List.mem_map.1 hm'
      exact (f4 n hn).2 p hp
  · obtain ⟨p, hp, rfl⟩ := List.mem_map.1 hc
    exact f5 p hp

/-- Witness for the C1 theorem at a concrete input. -/
theorem cleanup_idempotent_witness :
    (cleanupRun ⟨["app1"], [], ["data"], []⟩ project_names [] false
      ((cleanupRun ⟨["app1"], [], ["data"], []⟩ project_names [] false
        ⟨[⟨"app1", true, none⟩], [], [⟨"data", none⟩], []⟩).state)).state =
      (cleanupRun ⟨["app1"], [], ["data"], []⟩ project_names [] false
        ⟨[⟨"app1", true, none⟩], [], [⟨"data", none⟩], []⟩).state ∧
    targetAbsent ((cleanupRun ⟨["app1"], [], ["data"], []⟩ project_names [] false
      ⟨[⟨"app1", true, none⟩], [], [⟨"data", none⟩], []⟩).state)
      (Cmd.stop "app1") :=
  ⟨(cleanup_idempotent ⟨["app1"], [], ["data"], []⟩ project_names []
      ⟨[⟨"app1", true, none⟩], [], [⟨"data", none⟩], []⟩).1,
   (cleanup_idempotent ⟨["app1"], [], ["data"], []⟩ project_names []
      ⟨[⟨"app1", true, none⟩], [], [⟨"data", none⟩], []⟩).2
     (Cmd.stop "app1") (by decide)⟩

/-! ## C6: cleanup never raises -/

/-- At a `check=False` call site — every call site in `DockerCleaner` — the
raising branch of `run_command` is unreachable. -/
theorem runCommandE_ok (o : Outcome) (dry : Bool) (c : Cmd) :
    runCommandE o dry false c = .ok (runCommand o dry c) := by
  cases dry <;> simp [runCommandE, runCommand]

/-- A monadic fold whose step never fails computes the pure fold. -/
theorem foldlM_ok {α β : Type} (f : β → α → Except PyErr β) (g : β → α → β)
    (h : ∀ b a, f b a = .ok (g b a)) :
    ∀ (l : List α) (b : β), l.foldlM f b = .ok (l.foldl g b)
  | [], _ => rfl
  | a :: l, b => by
    rw [List.foldlM_cons, h b a, List.foldl_cons]
    exact foldlM_ok f g h l (g b a)

theorem clean_containersE_ok (rs : ResourceSet) (dry : Bool) (o : Outcome) :
    clean_containersE rs dry o = .ok (clean_containers rs dry o) := by
  refine foldlM_ok _ (cleanContainerStep dry) (fun o c => ?_) rs.containers o
  show (runCommandE o dry false (.stop c) >>= fun o =>
    runCommandE o dry false (.rm c)) = _
  rw [runCommandE_ok]
  show runCommandE (runCommand o dry (.stop c)) dry false (.rm c) = _
  rw [runCommandE_ok]
  rfl

theorem clean_imagesE_ok (rs : ResourceSet) (dry : Bool) (o : Outcome) :
    clean_imagesE rs dry o = .ok (clean_images rs dry o) := by
  refine foldlM_ok _ (cleanImageStep dry) (fun o i => ?_) rs.images o
  show (runCommandE o dry false (.rmi i) >>= fun o =>
    if dry then pure o
    else
      (((listRepoTags (runRead o (.imagesByRepo (repoOf i))).state
          (repoOf i)).filter (fun t => t != "")).foldlM
        (fun o t => runCommandE o dry false (.rmi t))
        (runRead o (.imagesByRepo (repoOf i))))) = _
  rw [runCommandE_ok]
  cases dry with
  | true => rfl
  | false =>
    show (((listRepoTags (runRead (runCommand o false (.rmi i))
        (.imagesByRepo (repoOf i))).state (repoOf i)).filter
        (fun t => t != "")).foldlM
      (fun o t => runCommandE o false false (.rmi t))
      (runRead (runCommand o false (.rmi i)) (.imagesByRepo (repoOf i)))) = _
    rw [foldlM_ok _ (fun o t => runCommand o false (.rmi t))
      (fun o t => runCommandE_ok o false (.rmi t))]
    rfl

theorem clean_volumesE_ok (rs : ResourceSet) (pns : List String) (dry : Bool)
    (o : Outcome) : clean_volumesE rs pns dry o = .ok (clean_volumes rs pns dry o) := by
  refine foldlM_ok _ (cleanVolumeStep pns dry) (fun o v => ?_) rs.volumes o
  show (runCommandE o dry false (.volumeRm v) >>= fun o =>
    pns.foldlM (fun o p => runCommandE o dry false (.volumeRm (p ++ "_" ++ v))) o) = _
  rw [runCommandE_ok]
  show pns.foldlM (fun o p => runCommandE o dry false (.volumeRm (p ++ "_" ++ v)))
    (runCommand o dry (.volumeRm v)) = _
  rw [foldlM_ok _ (fun o p => runCommand o dry (.volumeRm (p ++ "_" ++ v)))
    (fun o p => runCommandE_ok o dry (.volumeRm (p ++ "_" ++ v)))]
  rfl

theorem clean_networksE_ok (rs : ResourceSet) (pns : List String) (dry : Bool)
    (o : Outcome) :
    clean_networksE rs pns dry o = .ok (clean_networks rs pns dry o) := by
  refine foldlM_ok _ (cleanNetworkStep pns dry) (fun o n => ?_) rs.networks o
  show (runCommandE o dry false (.networkRm n) >>= fun o =>
    pns.foldlM (fun o p => runCommandE o dry false (.networkRm (p ++ "_" ++ n))) o) = _
  rw [runCommandE_ok]
  show pns.foldlM (fun o p => runCommandE o dry false (.networkRm (p ++ "_" ++ n)))
    (runCommand o dry (.networkRm n)) = _
  rw [foldlM_ok _ (fun o p => runCommand o dry (.networkRm (p ++ "_" ++ n)))
    (fun o p => runCommandE_ok o dry (.networkRm (p ++ "_" ++ n)))]
  rfl

theorem clean_compose_projectsE_ok (pns files : List String) (dry : Bool)
    (o : Outcome) :
    clean_compose_projectsE pns files dry o =
      .ok (clean_compose_projects pns files dry o) :=
  foldlM_ok _ (fun o p => runCommand o dry (.composeDown p files true))
    (fun o p => runCommandE_ok o dry (.composeDown p files true)) pns o

/-- C6: for every ResourceSet, project-name list, file list, dry-run flag
and daemon state — including states where every daemon call exits
nonzero — the full cleanup sequence never raises: with `run_command`'s
raising branch modelled explicitly, the run always returns `.ok` and agrees
with the pure model, because every cleaner call site leaves `check` at
`False` and a failed daemon call is returned, not raised. -/
theorem cleanup_never_raises (rs : ResourceSet) (pns files : List String)
    (dry : Bool) (s : DaemonState) :
    cleanupRunE rs pns files dry s = .ok (cleanupRun rs pns files dry s) := by
  show (clean_containersE rs dry (initOutcome s) >>= fun o =>
    clean_imagesE rs dry o >>= fun o =>
    clean_volumesE rs pns dry o >>= fun o =>
    clean_networksE rs pns dry o >>= fun o =>
    clean_compose_projectsE pns files dry o) = _
  rw [clean_containersE_ok]
  show (clean_imagesE rs dry (clean_containers rs dry (initOutcome s)) >>=
    fun o => clean_volumesE rs pns dry o >>= fun o =>
    clean_networksE rs pns dry o >>= fun o =>
    clean_compose_projectsE pns files dry o) = _
  rw [clean_imagesE_ok]
  show (clean_volumesE rs pns dry (clean_images rs dry
    (clean_containers rs dry (initOutcome s))) >>= fun o =>
    clean_networksE rs pns dry o >>= fun o =>
    clean_compose_projectsE pns files dry o) = _
  rw [clean_volumesE_ok]
  show (clean_networksE rs pns dry (clean_volumes rs pns dry (clean_images rs dry
    (clean_containers rs dry (initOutcome s)))) >>= fun o =>
    clean_compose_projectsE pns files dry o) = _
  rw [clean_networksE_ok]
  show clean_compose_projectsE pns files dry (clean_networks rs pns dry
    (clean_volumes rs pns dry (clean_images rs dry
      (clean_containers rs dry (initOutcome s))))) = _
  rw [clean_compose_projectsE_ok]
  rfl

/-! ## C7: manifest parsing is total and absence is not an error -/

/-- C7: `parse_compose_file` returns `None` — not an error — for a missing
file; on every read or syntax failure (a failing `readAndLoad`) it reports
and returns `None` instead of propagating the exception; and a successful
parse is returned unchanged, so the call never raises for any input. -/
theorem parse_compose_file_total (f : FileOutcome) :
    (f = .absent → parse_compose_file f = .null) ∧
    (∀ e, readAndLoad f = .error e → parse_compose_file f = .null) ∧
    (∀ t, f = .parsed t → parse_compose_file f = t) := by
  refine ⟨?_, ?_, ?_⟩
  · intro h
    simp [parse_compose_file, h]
  · intro e he
    by_cases h : f = .absent
    · simp [parse_compose_file, h]
    · simp [parse_compose_file, h, he]
  · intro t ht
    subst ht
    simp [parse_compose_file, readAndLoad]

/-- Witness for C7 at the three concrete file outcomes. -/
theorem parse_compose_file_total_witness :
    parse_compose_file .absent = .null ∧
    parse_compose_file (.failure .yamlError) = .null ∧
    parse_compose_file (.parsed (.dict [("services", .dict [])])) =
      .dict [("services", .dict [])] :=
  ⟨(parse_compose_file_total .absent).1 rfl,
   (parse_compose_file_total (.failure .yamlError)).2.1 .yamlError rfl,
   (parse_compose_file_total (.parsed (.dict [("services", .dict [])]))).2.2 _ rfl⟩

/-! ## C8: merged-config fetching -/

/-- C8: `get_merged_compose_config` returns Unavailable (`None`) without
invoking the daemon whenever either input file does not exist; when both
exist it invokes exactly one `docker compose config` call scoped to the
project with the base file before the overlay; a nonzero daemon exit or any
failure to parse the daemon's output yields `None` — the `except Exception`
clause turns the parse failure into a return, so the call never raises —
and a parsed output is returned unchanged. -/
theorem get_merged_compose_config_total (be re : Bool)
    (cfg : String → ConfigResult) (bp rp p : String) :
    (¬(be = true ∧ re = true) →
      get_merged_compose_config be re cfg bp rp p = (.null, [])) ∧
    (be = true → re = true →
      (get_merged_compose_config be re cfg bp rp p).2 =
        [Cmd.composeConfig p [bp, rp]]) ∧
    (be = true → re = true → (cfg p).exit ≠ 0 →
      (get_merged_compose_config be re cfg bp rp p).1 = .null) ∧
    (be = true → re = true → ∀ e, (cfg p).output = .error e →
      (get_merged_compose_config be re cfg bp rp p).1 = .null) ∧
    (be = true → re = true → ∀ t, (cfg p).exit = 0 → (cfg p).output = .ok t →
      (get_merged_compose_config be re cfg bp rp p).1 = t) := by
  refine ⟨?_, ?_, ?_, ?_, ?_⟩
  · intro h
    have hb : (be && re) = false := by
      cases be <;> cases re <;> simp_all
    simp [get_merged_compose_config, hb]
  · intro hb hr
    subst hb; subst hr
    simp only [get_merged_compose_config, Bool.and_self, Bool.not_true,
      Bool.false_eq_true, if_false]
    cases h : getMergedTryBody (cfg p) <;> rfl
  · intro hb hr hexit
    subst hb; subst hr
    simp only [get_merged_compose_config, Bool.and_self, Bool.not_true,
      Bool.false_eq_true, if_false]
    rw [show getMergedTryBody (cfg p) = .ok .null by
      simp [getMergedTryBody, hexit]]
  · intro hb hr e he
    subst hb; subst hr
    simp only [get_merged_compose_config, Bool.and_self, Bool.not_true,
      Bool.false_eq_true, if_false]
    by_cases hz : (cfg p).exit = 0
    · rw [show getMergedTryBody (cfg p) = .error e by
        simp [getMergedTryBody, hz, he]]
    · rw [show getMergedTryBody (cfg p) = .ok .null by
        simp [getMergedTryBody, hz]]
  · intro hb hr t hz ht
    subst hb; subst hr
    simp only [get_merged_compose_config, Bool.and_self, Bool.not_true,
      Bool.false_eq_true, if_false]
    rw [show getMergedTryBody (cfg p) = .ok t by simp [getMergedTryBody, hz, ht]]

/-- Witness for C8 at concrete inputs: a missing overlay, a failing daemon,
unparseable output, and a successful fetch. -/
theorem get_merged_compose_config_total_witness :
    get_merged_compose_config true false (fun _ => ⟨0, .ok .null⟩)
      "b.yml" "r.yml" "juno" = (.null, []) ∧
    (get_merged_compose_config true true (fun _ => ⟨1, .ok .null⟩)
      "b.yml" "r.yml" "juno").2 = [Cmd.composeConfig "juno" ["b.yml", "r.yml"]] ∧
    (get_merged_compose_config true true (fun _ => ⟨1, .ok .null⟩)
      "b.yml" "r.yml" "juno").1 = .null ∧
    (get_merged_compose_config true true (fun _ => ⟨0, .error .yamlError⟩)
      "b.yml" "r.yml" "juno").1 = .null ∧
    (get_merged_compose_config true true (fun _ => ⟨0, .ok (.dict [])⟩)
      "b.yml" "r.yml" "juno").1 = .dict [] :=
  ⟨(get_merged_compose_config_total true false (fun _ => ⟨0, .ok .null⟩)
      "b.yml" "r.yml" "juno").1 (by simp),
   (get_merged_compose_config_total true true (fun _ => ⟨1, .ok .null⟩)
      "b.yml" "r.yml" "juno").2.1 rfl rfl,
   (get_merged_compose_config_total true true (fun _ => ⟨1, .ok .null⟩)
      "b.yml" "r.yml" "juno").2.2.1 rfl rfl (by decide),
   (get_merged_compose_config_total true true (fun _ => ⟨0, .error .yamlError⟩)
      "b.yml" "r.yml" "juno").2.2.2.1 rfl rfl .yamlError rfl,
   (get_merged_compose_config_total true true (fun _ => ⟨0, .ok (.dict [])⟩)
      "b.yml" "r.yml" "juno").2.2.2.2 rfl rfl (.dict []) rfl rfl⟩

/-! ## C4: union-across-provenances invariant -/

theorem insertNew_mem (l : List Tree) (x y : Tree) :
    y ∈ insertNew l x ↔ y ∈ l ∨ y = x := by
  by_cases h : x ∈ l
  · simp only [insertNew, if_pos h]
    constructor
    · exact Or.inl
    · rintro (hy | rfl)
      · exact hy
      · exact h
  · simp [insertNew, if_neg h]

theorem insertNew_nodup {l : List Tree} (x : Tree) (h : l.Nodup) :
    (insertNew l x).Nodup := by
  by_cases hx : x ∈ l
  · simpa [insertNew, if_pos hx] using h
  · rw [insertNew, if_neg hx, List.nodup_append]
    refine ⟨h, List.nodup_singleton x, ?_⟩
    intro a hal hax
    rw [List.mem_singleton] at hax
    subst hax
    exact hx hal

theorem KindSets.record_inv {k : KindSets} (src : Source) (x : Tree)
    (h : k.UnionInv) : (k.record src x).UnionInv := by
  obtain ⟨hiff, ha, hi, hm⟩ := h
  cases src with
  | independent =>
    refine ⟨?_, insertNew_nodup x ha, insertNew_nodup x hi, hm⟩
    intro y
    rw [show (KindSets.record k .independent x).all = insertNew k.all x from rfl,
      show (KindSets.record k .independent x).independent =
        insertNew k.independent x from rfl,
      show (KindSets.record k .independent x).merged = k.merged from rfl,
      insertNew_mem, insertNew_mem, hiff y]
    tauto
  | merged =>
    refine ⟨?_, insertNew_nodup x ha, hi, insertNew_nodup x hm⟩
    intro y
    rw [show (KindSets.record k .merged x).all = insertNew k.all x from rfl,
      show (KindSets.record k .merged x).independent = k.independent from rfl,
      show (KindSets.record k .merged x).merged = insertNew k.merged x from rfl,
      insertNew_mem, insertNew_mem, hiff y]
    tauto

/-- A fold preserving a predicate preserves it over the whole list. -/
theorem foldl_preserve {α β : Type} (P : β → Prop) (g : β → α → β)
    (h : ∀ b a, P b → P (g b a)) :
    ∀ (l : List α) (b : β), P b → P (l.foldl g b)
  | [], _, hb => hb
  | a :: l, b, hb => foldl_preserve P g h l (g b a) (h b a hb)

/-- Recording one identifier in any one kind preserves the invariant. -/
theorem record_containers_inv {st : ExtractorState} (src : Source) (x : Tree)
    (h : st.UnionInv) :
    ({ st with containers := st.containers.record src x } : ExtractorState).UnionInv :=
  ⟨KindSets.record_inv src x h.1, h.2.1, h.2.2.1, h.2.2.2⟩

theorem record_images_inv {st : ExtractorState} (src : Source) (x : Tree)
    (h : st.UnionInv) :
    ({ st with images := st.images.record src x } : ExtractorState).UnionInv :=
  ⟨h.1, KindSets.record_inv src x h.2.1, h.2.2.1, h.2.2.2⟩

theorem record_volumes_inv {st : ExtractorState} (src : Source) (x : Tree)
    (h : st.UnionInv) :
    ({ st with volumes := st.volumes.record src x } : ExtractorState).UnionInv :=
  ⟨h.1, h.2.1, KindSets.record_inv src x h.2.2.1, h.2.2.2⟩

theorem record_networks_inv {st : ExtractorState} (src : Source) (x : Tree)
    (h : st.UnionInv) :
    ({ st with networks := st.networks.record src x } : ExtractorState).UnionInv :=
  ⟨h.1, h.2.1, h.2.2.1, KindSets.record_inv src x h.2.2.2⟩

theorem recordCacheFrom_inv (st : ExtractorState) (src : Source)
    (skvs : List (String × Tree)) (h : st.UnionInv) :
    (recordCacheFrom st src skvs).UnionInv := by
  simp only [recordCacheFrom]
  split
  · split
    · refine foldl_preserve ExtractorState.UnionInv _ (fun st img hst => ?_) _ st h
      split
      · exact record_images_inv src img hst
      · exact hst
    · exact h
  · exact h

theorem processService_inv (st : ExtractorState) (src : Source) (sc : Tree)
    (h : st.UnionInv) : (processService st src sc).UnionInv := by
  simp only [processService]
  split
  · rename_i skvs
    apply recordCacheFrom_inv
    have h1 : (if (lookupD skvs "container_name" .null).truthy = true then
        ({ st with containers :=
          st.containers.record src (lookupD skvs "container_name" .null) } :
            ExtractorState)
        else st).UnionInv := by
      split
      · exact record_containers_inv src _ h
      · exact h
    split
    · exact record_images_inv src _ h1
    · exact h1
  · exact h

theorem extractVolumesSection_inv (st : ExtractorState) (src : Source) (v : Tree)
    (h : st.UnionInv) : (extractVolumesSection st src v).UnionInv := by
  simp only [extractVolumesSection]
  split
  · exact foldl_preserve ExtractorState.UnionInv _
      (fun st kv hst => record_volumes_inv src _ hst) _ st h
  · exact h

theorem extractNetworksSection_inv (st : ExtractorState) (src : Source) (v : Tree)
    (h : st.UnionInv) : (extractNetworksSection st src v).UnionInv := by
  simp only [extractNetworksSection]
  split
  · exact foldl_preserve ExtractorState.UnionInv _
      (fun st kv hst => record_networks_inv src _ hst) _ st h
  · exact h

theorem extract_from_config_inv (st : ExtractorState) (cfg : Tree) (src : Source)
    (h : st.UnionInv) : (_extract_from_config st cfg src).1.UnionInv := by
  simp only [_extract_from_config]
  split
  · split
    · exact extractNetworksSection_inv _ src _
        (extractVolumesSection_inv _ src _
          (foldl_preserve ExtractorState.UnionInv _
            (fun st kv hst => processService_inv st src kv.2 hst) _ st h))
    · exact h
  · exact h

theorem applyCall_inv (st : ExtractorState) (c : ExtractCall)
    (h : st.UnionInv) : (applyCall st c).UnionInv := by
  cases c with
  | all b r =>
    show (extract_all st b r).1.UnionInv
    rcases hres : _extract_from_config st b .independent with ⟨st', err⟩
    have h1 : st'.UnionInv := by
      have h2 := extract_from_config_inv st b .independent h
      rw [hres] at h2
      exact h2
    simp only [extract_all, hres]
    split
    · cases err with
      | none =>
        show (if r.truthy = true then _extract_from_config st' r .independent
          else (st', none)).1.UnionInv
        split
        · exact extract_from_config_inv st' r .independent h1
        · exact h1
      | some e => exact h1
    · split
      · exact extract_from_config_inv st r .independent h
      · exact h
  | merged t => exact extract_from_config_inv st t .merged h

/-- C4: after any sequence of extraction calls (`extract_all` over the two
independent trees and `extract_from_merged` over any merged trees, in any
order, with any trees), each per-kind collection is exactly the set union of
the two provenance shadow sets — an identifier recorded both directly and
via a project-scoped merge appears exactly once (all collections are
duplicate-free), and membership in the union never requires presence in
more than one source. -/
theorem extraction_union_invariant (cs : List ExtractCall) :
    (applyCalls initExtractor cs).UnionInv := by
  have hinit : initExtractor.UnionInv := by
    refine ⟨?_, ?_, ?_, ?_⟩ <;>
      exact ⟨fun x => by simp [initExtractor], List.nodup_nil, List.nodup_nil,
        List.nodup_nil⟩
  exact foldl_preserve ExtractorState.UnionInv applyCall applyCall_inv cs
    initExtractor hinit

/-- A hashable value is recorded by both paired adds without raising. -/
theorem recordH_hashable (k : KindSets) (src : Source) (x : Tree)
    (h : x.hashable = true) : k.recordH src x = (k.record src x, none) := by
  rcases src with _ | _ <;>
    simp [KindSets.recordH, KindSets.record, insertNewH, h]

/-- An unhashable value makes the first add raise before any mutation. -/
theorem recordH_unhashable (k : KindSets) (src : Source) (x : Tree)
    (h : x.hashable = false) : k.recordH src x = (k, some .typeError) := by
  simp [KindSets.recordH, insertNewH, h]

/-- The container add raises nothing iff its value is falsy or hashable. -/
theorem addContainerH_err (src : Source) (st : ExtractorState) (cn : Tree) :
    (addContainerH src st cn).2 = none ↔ (!cn.truthy || cn.hashable) = true := by
  cases hcn : cn.truthy with
  | false => simp [addContainerH, hcn]
  | true =>
    cases hch : cn.hashable with
    | true => simp [addContainerH, hcn, recordH_hashable st.containers src cn hch]
    | false => simp [addContainerH, hcn, recordH_unhashable st.containers src cn hch]

/-- The image add raises nothing iff its value is falsy or hashable. -/
theorem addImageH_err (src : Source) (st : ExtractorState) (img : Tree) :
    (addImageH src st img).2 = none ↔ (!img.truthy || img.hashable) = true := by
  cases hi : img.truthy with
  | false => simp [addImageH, hi]
  | true =>
    cases hh : img.hashable with
    | true => simp [addImageH, hi, recordH_hashable st.images src img hh]
    | false => simp [addImageH, hi, recordH_unhashable st.images src img hh]

/-- A loop of exception-propagating steps never resumes past a raise. -/
theorem foldl_andThenE_some {α : Type}
    (g : ExtractorState → α → ExtractorState × Option PyErr)
    (l : List α) (s : ExtractorState) (e : PyErr) :
    l.foldl (fun p x => andThenE p (fun st => g st x)) (s, some e) =
      (s, some e) := by
  induction l with
  | nil => rfl
  | cons x xs ih =>
    rw [List.foldl_cons]
    have h1 : andThenE (s, some e) (fun st => g st x) = (s, some e) := rfl
    rw [h1, ih]

/-- A loop of exception-propagating steps whose per-step raising condition
is state-independent raises nothing iff every element is clean. -/
theorem foldl_andThenE_none {α : Type}
    (g : ExtractorState → α → ExtractorState × Option PyErr)
    (ok : α → Bool)
    (h : ∀ (s : ExtractorState) (x : α), (g s x).2 = none ↔ ok x = true)
    (l : List α) (s : ExtractorState) :
    (l.foldl (fun p x => andThenE p (fun st => g st x)) (s, none)).2 = none ↔
      l.all ok = true := by
  induction l generalizing s with
  | nil => simp
  | cons x xs ih =>
    rw [List.foldl_cons]
    have h1 : andThenE (s, none) (fun st => g st x) = g s x := rfl
    rw [h1]
    rcases hg : g s x with ⟨s2, oe⟩
    have hx := h s x
    rw [hg] at hx
    cases oe with
    | none =>
      have hok : ok x = true := hx.mp rfl
      rw [List.all_cons, hok]
      simpa using ih s2
    | some e =>
      have hok : ok x = false := by
        cases hxx : ok x
        · rfl
        · exact absurd (hx.mpr hxx) (by simp)
      rw [foldl_andThenE_some, List.all_cons, hok]
      simp

/-- The cache loop raises nothing iff every truthy entry is hashable. -/
theorem recordCacheFromH_err (st : ExtractorState) (src : Source)
    (skvs : List (String × Tree)) :
    (recordCacheFromH st src skvs).2 = none ↔ cacheHashOk skvs = true := by
  rcases hb : lookupD skvs "build" (.dict []) with _ | b | n | s2 | xs | bkvs
  · simp [recordCacheFromH, cacheHashOk, hb]
  · simp [recordCacheFromH, cacheHashOk, hb]
  · simp [recordCacheFromH, cacheHashOk, hb]
  · simp [recordCacheFromH, cacheHashOk, hb]
  · simp [recordCacheFromH, cacheHashOk, hb]
  · rcases hc : lookupD bkvs "cache_from" (.list []) with _ | b2 | n2 | s3 | imgs | kvs2
    · simp [recordCacheFromH, cacheHashOk, hb, hc]
    · simp [recordCacheFromH, cacheHashOk, hb, hc]
    · simp [recordCacheFromH, cacheHashOk, hb, hc]
    · simp [recordCacheFromH, cacheHashOk, hb, hc]
    · simp only [recordCacheFromH, cacheHashOk, hb, hc]
      exact foldl_andThenE_none (fun s i => addImageH src s i)
        (fun i => (!i.truthy || i.hashable))
        (fun s i => addImageH_err src s i) imgs st
    · simp [recordCacheFromH, cacheHashOk, hb, hc]

/-- One service entry raises nothing iff its identifiers are hashable. -/
theorem processServiceH_err (st : ExtractorState) (src : Source) (sc : Tree) :
    (processServiceH st src sc).2 = none ↔ serviceHashOk sc = true := by
  cases sc with
  | dict skvs =>
    simp only [processServiceH, serviceHashOk]
    rcases h1 : addContainerH src st (lookupD skvs "container_name" .null)
      with ⟨st1, oe1⟩
    have he1 := addContainerH_err src st (lookupD skvs "container_name" .null)
    rw [h1] at he1
    cases oe1 with
    | some e =>
      have hf1 : (!(lookupD skvs "container_name" Tree.null).truthy ||
          (lookupD skvs "container_name" Tree.null).hashable) = false := by
        cases hxx : (!(lookupD skvs "container_name" Tree.null).truthy ||
            (lookupD skvs "container_name" Tree.null).hashable)
        · rfl
        · exact absurd (he1.mpr hxx) (by simp)
      simp [andThenE, hf1]
    | none =>
      have ht1 : (!(lookupD skvs "container_name" Tree.null).truthy ||
          (lookupD skvs "container_name" Tree.null).hashable) = true :=
        he1.mp rfl
      have h2 : andThenE (st1, none) (fun st => andThenE
          (addImageH src st (lookupD skvs "image" Tree.null))
          (fun st => recordCacheFromH st src skvs)) =
          andThenE (addImageH src st1 (lookupD skvs "image" Tree.null))
            (fun st => recordCacheFromH st src skvs) := rfl
      rw [h2]
      rcases h3 : addImageH src st1 (lookupD skvs "image" Tree.null)
        with ⟨st2, oe2⟩
      have he2 := addImageH_err src st1 (lookupD skvs "image" Tree.null)
      rw [h3] at he2
      cases oe2 with
      | some e =>
        have hf2 : (!(lookupD skvs "image" Tree.null).truthy ||
            (lookupD skvs "image" Tree.null).hashable) = false := by
          cases hxx : (!(lookupD skvs "image" Tree.null).truthy ||
              (lookupD skvs "image" Tree.null).hashable)
          · rfl
          · exact absurd (he2.mpr hxx) (by simp)
        simp [andThenE, ht1, hf2]
      | none =>
        have ht2 : (!(lookupD skvs "image" Tree.null).truthy ||
            (lookupD skvs "image" Tree.null).hashable) = true :=
          he2.mp rfl
        simp [andThenE, ht1, ht2, recordCacheFromH_err st2 src skvs]
  | null => simp [processServiceH, serviceHashOk]
  | bool b => simp [processServiceH, serviceHashOk]
  | int n => simp [processServiceH, serviceHashOk]
  | str s => simp [processServiceH, serviceHashOk]
  | list xs => simp [processServiceH, serviceHashOk]

/-- The faithful per-config extraction raises nothing iff the config is
extractable and all its recorded identifiers are hashable. -/
theorem extract_from_config_h_err (st : ExtractorState) (cfg : Tree)
    (src : Source) :
    (_extract_from_config_h st cfg src).2 = none ↔
      (cfg.extractable = true ∧ cfg.hashOk = true) := by
  cases cfg with
  | dict ckvs =>
    rcases hld : lookupD ckvs "services" (.dict []) with _ | b | n | s2 | xs | skvs
    · simp [_extract_from_config_h, Tree.extractable, Tree.hashOk, hld,
        Tree.isDict]
    · simp [_extract_from_config_h, Tree.extractable, Tree.hashOk, hld,
        Tree.isDict]
    · simp [_extract_from_config_h, Tree.extractable, Tree.hashOk, hld,
        Tree.isDict]
    · simp [_extract_from_config_h, Tree.extractable, Tree.hashOk, hld,
        Tree.isDict]
    · simp [_extract_from_config_h, Tree.extractable, Tree.hashOk, hld,
        Tree.isDict]
    · simp only [_extract_from_config_h, Tree.extractable, Tree.hashOk, hld,
        Tree.isDict]
      change (andThenE
        (skvs.foldl
          (fun p kv => andThenE p (fun s => processServiceH s src kv.2))
          (st, none))
        (fun s =>
          (extractNetworksSection
            (extractVolumesSection s src (lookupD ckvs "volumes" (.dict [])))
            src (lookupD ckvs "networks" (.dict [])), none))).2 = none ↔ _
      rcases hf : skvs.foldl
          (fun p kv => andThenE p (fun s => processServiceH s src kv.2))
          (st, none) with ⟨st1, oe⟩
      have hiff := foldl_andThenE_none
        (fun s kv => processServiceH s src kv.2)
        (fun kv => serviceHashOk kv.2)
        (fun s kv => processServiceH_err s src kv.2) skvs st
      rw [hf] at hiff
      rw [hf]
      cases oe with
      | none =>
        have hstep : andThenE (st1, (none : Option PyErr)) (fun s =>
            (extractNetworksSection
              (extractVolumesSection s src (lookupD ckvs "volumes" (.dict [])))
              src (lookupD ckvs "networks" (.dict [])), none)) =
            (extractNetworksSection
              (extractVolumesSection st1 src (lookupD ckvs "volumes" (.dict [])))
              src (lookupD ckvs "networks" (.dict [])), none) := rfl
        rw [hstep]
        have hall := hiff.mp rfl
        simp [hall]
      | some e =>
        have hstep : andThenE (st1, some e) (fun s =>
            (extractNetworksSection
              (extractVolumesSection s src (lookupD ckvs "volumes" (.dict [])))
              src (lookupD ckvs "networks" (.dict [])), none)) =
            (st1, some e) := rfl
        rw [hstep]
        have hall : skvs.all (fun kv => serviceHashOk kv.2) = false := by
          cases hxx : skvs.all (fun kv => serviceHashOk kv.2)
          · rfl
          · exact absurd (hiff.mpr hxx) (by simp)
        simp [hall]
  | null => simp [_extract_from_config_h, Tree.extractable]
  | bool b => simp [_extract_from_config_h, Tree.extractable]
  | int n => simp [_extract_from_config_h, Tree.extractable]
  | str s => simp [_extract_from_config_h, Tree.extractable]
  | list xs => simp [_extract_from_config_h, Tree.extractable]

/-- C10 counterexample: a config that is a mapping and whose `services`
value is a mapping — the claimed precondition holds — on which extraction
still raises: the service's truthy `container_name` is an unhashable list,
so `self.containers.add(container_name)` raises `TypeError`. -/
theorem extract_unhashable_counterexample :
    (Tree.dict [("services", .dict [("web", .dict
        [("container_name", .list [.str "x"])])])]).extractable = true ∧
    (_extract_from_config_h initExtractor
      (.dict [("services", .dict [("web", .dict
        [("container_name", .list [.str "x"])])])]) .independent).2 =
      some .typeError := by decide

/-- C10 (corrected): under the mapping precondition alone the extraction is
not total — a truthy unhashable identifier makes `set.add` raise
`TypeError` — so it raises nothing exactly when the config is a mapping
whose `services` entry (defaulting to `{}`) is a mapping AND every recorded
identifier (the truthy `container_name` and `image` values of mapping
service entries and the truthy entries of a list-valued `cache_from` under
a mapping `build`) is hashable.  A service entry that is not a mapping is
skipped silently, a non-mapping top-level `volumes` or `networks` value
contributes no identifiers, and a non-mapping `build` or non-list
`cache_from` value contributes no image identifiers. -/
theorem extract_from_config_totality_hashable :
    (∀ (st : ExtractorState) (cfg : Tree) (src : Source),
      (_extract_from_config_h st cfg src).2 = none ↔
        (cfg.extractable = true ∧ cfg.hashOk = true)) ∧
    (∀ (st : ExtractorState) (src : Source) (sc : Tree), sc.isDict = false →
      processServiceH st src sc = (st, none)) ∧
    (∀ (st : ExtractorState) (src : Source) (v : Tree), v.isDict = false →
      extractVolumesSection st src v = st ∧ extractNetworksSection st src v = st) ∧
    (∀ (st : ExtractorState) (src : Source) (skvs : List (String × Tree)),
      (lookupD skvs "build" (.dict [])).isDict = false →
      recordCacheFromH st src skvs = (st, none)) ∧
    (∀ (st : ExtractorState) (src : Source) (skvs : List (String × Tree))
      (bkvs : List (String × Tree)),
      lookupD skvs "build" (.dict []) = .dict bkvs →
      (lookupD bkvs "cache_from" (.list [])).isList = false →
      recordCacheFromH st src skvs = (st, none)) := by
  refine ⟨?_, ?_, ?_, ?_, ?_⟩
  · intro st cfg src
    exact extract_from_config_h_err st cfg src
  · intro st src sc hsc
    cases sc with
    | dict skvs => simp [Tree.isDict] at hsc
    | null => rfl
    | bool b => rfl
    | int n => rfl
    | str s => rfl
    | list xs => rfl
  · intro st src v hv
    cases v with
    | dict kvs => simp [Tree.isDict] at hv
    | null => exact ⟨rfl, rfl⟩
    | bool b => exact ⟨rfl, rfl⟩
    | int n => exact ⟨rfl, rfl⟩
    | str s => exact ⟨rfl, rfl⟩
    | list xs => exact ⟨rfl, rfl⟩
  · intro st src skvs hb
    simp only [recordCacheFromH]
    split
    · rename_i bkvs heq
      rw [heq] at hb
      simp [Tree.isDict] at hb
    · rfl
  · intro st src skvs bkvs hb hc
    simp only [recordCacheFromH]
    split
    · rename_i bkvs' heq
      rw [heq] at hb
      cases hb
      split
      · rename_i imgs heq2
        rw [heq2] at hc
        simp [Tree.isList] at hc
      · rfl
    · rfl

/-- Witness for C10 at concrete inputs: an extractable config whose
identifiers are hashable strings, a non-mapping service entry, a
non-mapping `volumes` value, a non-mapping `build`, and a non-list
`cache_from`. -/
theorem extract_from_config_totality_hashable_witness :
    (_extract_from_config_h initExtractor
      (.dict [("services",
        .dict [("web", .dict [("container_name", .str "c")])])])
      .independent).2 = none ∧
    processServiceH initExtractor .independent (.str "x") =
      (initExtractor, none) ∧
    extractVolumesSection initExtractor .independent (.list []) =
      initExtractor ∧
    recordCacheFromH initExtractor .independent [("build", .str "x")] =
      (initExtractor, none) ∧
    recordCacheFromH initExtractor .independent
      [("build", .dict [("cache_from", .str "x")])] =
      (initExtractor, none) :=
  ⟨(extract_from_config_totality_hashable.1 initExtractor
      (.dict [("services",
        .dict [("web", .dict [("container_name", .str "c")])])])
      .independent).2 ⟨by decide, by decide⟩,
   extract_from_config_totality_hashable.2.1 initExtractor .independent
     (.str "x") rfl,
   (extract_from_config_totality_hashable.2.2.1 initExtractor .independent
     (.list []) rfl).1,
   extract_from_config_totality_hashable.2.2.2.1 initExtractor .independent
     [("build", .str "x")] (by decide),
   extract_from_config_totality_hashable.2.2.2.2 initExtractor .independent
     [("build", .dict [("cache_from", .str "x")])] [("cache_from", .str "x")]
     (by decide) (by decide)⟩

/-- Under the extractability precondition, extraction raises nothing. -/
theorem extract_from_config_none_of {st : ExtractorState} {cfg : Tree}
    {src : Source} (h : cfg.extractable = true) :
    (_extract_from_config st cfg src).2 = none := by
  cases cfg with
  | dict ckvs =>
    simp only [_extract_from_config]
    split
    · rfl
    · rename_i hne
      rw [Tree.extractable] at h
      rcases hld : lookupD ckvs "services" (.dict []) with _ | b | n | s2 | xs | kvs
      all_goals rw [hld] at h
      all_goals first
        | exact absurd hld (fun hc => hne kvs hc)
        | (simp [Tree.isDict] at h)
  | null => simp [Tree.extractable] at h
  | bool b => simp [Tree.extractable] at h
  | int n => simp [Tree.extractable] at h
  | str s => simp [Tree.extractable] at h
  | list xs => simp [Tree.extractable] at h

theorem allStrIdents_insert {l : List Tree} {x : Tree} (hl : allStrIdents l)
    (hx : x.isStr = true) : allStrIdents (insertNew l x) := by
  intro y hy
  rcases (insertNew_mem l x y).1 hy with hy' | rfl
  · exact hl y hy'
  · exact hx

theorem KindSets.record_str {k : KindSets} (src : Source) {x : Tree}
    (h : allStrIdents k.all) (hx : x.isStr = true) :
    allStrIdents (k.record src x).all := by
  rw [KindSets.record]
  split
  · exact allStrIdents_insert h hx
  · exact allStrIdents_insert h hx

/-- An establish-and-preserve fold with a pointwise side condition. -/
theorem foldl_preserve_mem {α β : Type} (P : β → Prop) (Q : α → Prop)
    (g : β → α → β) (h : ∀ b a, P b → Q a → P (g b a)) :
    ∀ (l : List α) (b : β), P b → (∀ a ∈ l, Q a) → P (l.foldl g b)
  | [], _, hb, _ => hb
  | a :: l, b, hb, hq =>
    foldl_preserve_mem P Q g h l (g b a)
      (h b a hb (hq a (List.mem_cons_self a l)))
      (fun x hx => hq x (List.mem_cons_of_mem a hx))

theorem recordCacheFrom_str {st : ExtractorState} (src : Source)
    {skvs : List (String × Tree)} (h : st.strIdents)
    (hc : cacheStrOk skvs = true) : (recordCacheFrom st src skvs).strIdents := by
  rw [cacheStrOk] at hc
  simp only [recordCacheFrom]
  split
  · rename_i bkvs heq
    rw [heq] at hc
    have hc2 : (match lookupD bkvs "cache_from" (Tree.list []) with
        | .list imgs => imgs.all (fun i => !i.truthy || i.isStr)
        | _ => true) = true := hc
    clear hc
    split
    · rename_i imgs heq2
      rw [heq2] at hc2
      rw [List.all_eq_true] at hc2
      refine foldl_preserve_mem ExtractorState.strIdents
        (fun i => (!i.truthy || i.isStr) = true) _
        (fun st i hst hi => ?_) imgs st h (fun i hi => hc2 i hi)
      split
      · rename_i ht
        refine ⟨hst.1, KindSets.record_str src hst.2.1 ?_, hst.2.2.1, hst.2.2.2⟩
        rcases Bool.or_eq_true_iff.1 hi with hi' | hi'
        · rw [ht] at hi'
          simp at hi'
        · exact hi'
      · exact hst
    · exact h
  · exact h

theorem processService_str {st : ExtractorState} (src : Source) {sc : Tree}
    (h : st.strIdents) (hsc : serviceStrIdents sc = true) :
    (processService st src sc).strIdents := by
  cases sc with
  | dict skvs =>
    rw [serviceStrIdents] at hsc
    rw [Bool.and_eq_true, Bool.and_eq_true] at hsc
    obtain ⟨hcn, him, hcf⟩ := hsc
    simp only [processService]
    have h1 : (if (lookupD skvs "container_name" .null).truthy = true then
        ({ st with containers :=
          st.containers.record src (lookupD skvs "container_name" .null) } :
            ExtractorState)
        else st).strIdents := by
      split
      · rename_i ht
        refine ⟨KindSets.record_str src h.1 ?_, h.2.1, h.2.2.1, h.2.2.2⟩
        rcases Bool.or_eq_true_iff.1 hcn with hc' | hc'
        · rw [ht] at hc'
          simp at hc'
        · exact hc'
      · exact h
    have h2 : (if (lookupD skvs "image" .null).truthy = true then
        ({ (if (lookupD skvs "container_name" .null).truthy = true then
            ({ st with containers :=
              st.containers.record src (lookupD skvs "container_name" .null) } :
                ExtractorState)
            else st) with images :=
          (if (lookupD skvs "container_name" .null).truthy = true then
            ({ st with containers :=
              st.containers.record src (lookupD skvs "container_name" .null) } :
                ExtractorState)
            else st).images.record src (lookupD skvs "image" .null) } :
            ExtractorState)
        else
          (if (lookupD skvs "container_name" .null).truthy = true then
            ({ st with containers :=
              st.containers.record src (lookupD skvs "container_name" .null) } :
                ExtractorState)
            else st)).strIdents := by
      split
      · rename_i ht
        refine ⟨h1.1, KindSets.record_str src h1.2.1 ?_, h1.2.2.1, h1.2.2.2⟩
        rcases Bool.or_eq_true_iff.1 him with hi' | hi'
        · rw [ht] at hi'
          simp at hi'
        · exact hi'
      · exact h1
    exact recordCacheFrom_str src h2 hcf
  | null => exact h
  | bool b => exact h
  | int n => exact h
  | str s => exact h
  | list xs => exact h

theorem extractVolumesSection_str {st : ExtractorState} (src : Source) (v : Tree)
    (h : st.strIdents) : (extractVolumesSection st src v).strIdents := by
  simp only [extractVolumesSection]
  split
  · refine foldl_preserve ExtractorState.strIdents _ (fun st kv hst => ?_) _ st h
    exact ⟨hst.1, hst.2.1,
      @KindSets.record_str _ src (.str kv.1) hst.2.2.1 rfl, hst.2.2.2⟩
  · exact h

theorem extractNetworksSection_str {st : ExtractorState} (src : Source) (v : Tree)
    (h : st.strIdents) : (extractNetworksSection st src v).strIdents := by
  simp only [extractNetworksSection]
  split
  · refine foldl_preserve ExtractorState.strIdents _ (fun st kv hst => ?_) _ st h
    exact ⟨hst.1, hst.2.1, hst.2.2.1,
      @KindSets.record_str _ src (.str kv.1) hst.2.2.2 rfl⟩
  · exact h

theorem extract_from_config_str {st : ExtractorState} {cfg : Tree} {src : Source}
    (h : st.strIdents) (hcfg : cfg.strIdents = true) :
    (_extract_from_config st cfg src).1.strIdents := by
  cases cfg with
  | dict ckvs =>
    rw [Tree.strIdents] at hcfg
    simp only [_extract_from_config]
    split
    · rename_i skvs heq
      rw [heq, List.all_eq_true] at hcfg
      exact extractNetworksSection_str src _
        (extractVolumesSection_str src _
          (foldl_preserve_mem ExtractorState.strIdents
            (fun kv : String × Tree => serviceStrIdents kv.2 = true) _
            (fun st kv hst hkv => processService_str src hst hkv) skvs st h
            (fun kv hkv => hcfg kv hkv)))
    · exact h
  | null => exact h
  | bool b => exact h
  | int n => exact h
  | str s => exact h
  | list xs => exact h

/-- With both manifests extractable-when-truthy, the independent extraction
raises nothing and keeps identifiers strings. -/
theorem extract_all_ok {st : ExtractorState} {b r : Tree} (hst : st.strIdents)
    (hb : b.truthy = true → b.extractable = true ∧ b.strIdents = true)
    (hr : r.truthy = true → r.extractable = true ∧ r.strIdents = true) :
    (extract_all st b r).2 = none ∧ (extract_all st b r).1.strIdents := by
  simp only [extract_all]
  split
  · rename_i htb
    rcases hres : _extract_from_config st b .independent with ⟨st', err⟩
    have hnone := @extract_from_config_none_of st b .independent (hb htb).1
    have hstr := @extract_from_config_str st b .independent hst (hb htb).2
    rw [hres] at hnone hstr
    cases err with
    | some e => simp at hnone
    | none =>
      show ((if r.truthy = true then _extract_from_config st' r .independent
        else (st', none)).2 = none ∧
        (if r.truthy = true then _extract_from_config st' r .independent
          else (st', none)).1.strIdents)
      split
      · rename_i htr
        exact ⟨@extract_from_config_none_of st' r .independent (hr htr).1,
          @extract_from_config_str st' r .independent hstr (hr htr).2⟩
      · exact ⟨rfl, hstr⟩
  · split
    · rename_i htr
      exact ⟨@extract_from_config_none_of st r .independent (hr htr).1,
        @extract_from_config_str st r .independent hst (hr htr).2⟩
    · exact ⟨rfl, hst⟩

/-- One merged-extraction iteration ends in `.ok` and keeps identifiers
strings, provided a truthy merged config is extractable with string
identifiers. -/
theorem mergedExtractStep_ok (env : MainEnv) (st : ExtractorState) (o : Outcome)
    (p : String) (hst : st.strIdents)
    (hp : (get_merged_compose_config (env.baseFile ≠ .absent)
        (env.runtimeFile ≠ .absent) env.config env.basePath env.runtimePath
        p).1.truthy = true →
      (get_merged_compose_config (env.baseFile ≠ .absent)
        (env.runtimeFile ≠ .absent) env.config env.basePath env.runtimePath
        p).1.extractable = true ∧
      (get_merged_compose_config (env.baseFile ≠ .absent)
        (env.runtimeFile ≠ .absent) env.config env.basePath env.runtimePath
        p).1.strIdents = true) :
    ∃ st1 o1, mergedExtractStep env (st, o) p = .ok (st1, o1) ∧ st1.strIdents := by
  simp only [mergedExtractStep]
  split
  · rename_i ht
    obtain ⟨hx, hs⟩ := hp ht
    rcases hres : _extract_from_config st (get_merged_compose_config
      (env.baseFile ≠ .absent) (env.runtimeFile ≠ .absent) env.config
      env.basePath env.runtimePath p).1 .merged with ⟨st1, err⟩
    have hnone := @extract_from_config_none_of st _ Source.merged hx
    have hstr := @extract_from_config_str st _ Source.merged hst hs
    rw [hres] at hnone hstr
    rw [show extract_from_merged st (get_merged_compose_config
      (env.baseFile ≠ .absent) (env.runtimeFile ≠ .absent) env.config
      env.basePath env.runtimePath p).1 = _extract_from_config st
      (get_merged_compose_config (env.baseFile ≠ .absent)
        (env.runtimeFile ≠ .absent) env.config env.basePath env.runtimePath
        p).1 .merged from rfl, hres]
    cases err with
    | some e => simp at hnone
    | none => exact ⟨st1, _, rfl, hstr⟩
  · exact ⟨st, _, rfl, hst⟩

/-- The merged-extraction loop ends in `.ok` and keeps identifiers strings. -/
theorem mergedExtract_fold_ok (env : MainEnv) :
    ∀ (l : List String) (st : ExtractorState) (o : Outcome), st.strIdents →
    (∀ p ∈ l,
      (get_merged_compose_config (env.baseFile ≠ .absent)
        (env.runtimeFile ≠ .absent) env.config env.basePath env.runtimePath
        p).1.truthy = true →
      (get_merged_compose_config (env.baseFile ≠ .absent)
        (env.runtimeFile ≠ .absent) env.config env.basePath env.runtimePath
        p).1.extractable = true ∧
      (get_merged_compose_config (env.baseFile ≠ .absent)
        (env.runtimeFile ≠ .absent) env.config env.basePath env.runtimePath
        p).1.strIdents = true) →
    ∃ st' o', l.foldlM (mergedExtractStep env) (st, o) = .ok (st', o') ∧
      st'.strIdents
  | [], st, o, hst, _ => ⟨st, o, rfl, hst⟩
  | p :: l, st, o, hst, hp => by
    obtain ⟨st1, o1, hstep, hst1⟩ := mergedExtractStep_ok env st o p hst
      (hp p (List.mem_cons_self p l))
    obtain ⟨st', o', hrest, hst'⟩ := mergedExtract_fold_ok env l st1 o1 hst1
      (fun q hq => hp q (List.mem_cons_of_mem p hq))
    refine ⟨st', o', ?_, hst'⟩
    rw [List.foldlM_cons, hstep]
    exact hrest

/-- String identifiers convert to command arguments without `TypeError`. -/
theorem idStrings_ok {l : List Tree} (h : allStrIdents l) :
    ∃ ss : List String, idStrings l = .ok ss := by
  induction l with
  | nil => exact ⟨[], rfl⟩
  | cons x l ih =>
    have hx := h x (List.mem_cons_self x l)
    obtain ⟨ss, hss⟩ := ih (fun y hy => h y (List.mem_cons_of_mem x hy))
    cases x with
    | str s =>
      refine ⟨s :: ss, ?_⟩
      have hss2 : l.mapM (fun t => match t with
          | Tree.str s => Except.ok s
          | _ => Except.error PyErr.typeError) = Except.ok ss := hss
      simp only [idStrings, List.mapM_cons, hss2]
      rfl
    | null => simp [Tree.isStr] at hx
    | bool b => simp [Tree.isStr] at hx
    | int n => simp [Tree.isStr] at hx
    | list xs => simp [Tree.isStr] at hx
    | dict kvs => simp [Tree.isStr] at hx

/-- The teardown tail of `main` never raises. -/
theorem mainTeardownE_ok (env : MainEnv) (rs : ResourceSet) (o : Outcome) :
    mainTeardownE env rs o = .ok (mainTeardown env rs o) := by
  show (project_names.foldlM (fun o p => runCommandE o env.dryRun false
      (.composeDown p [env.basePath, env.runtimePath] false)) o >>= fun o =>
    clean_containersE rs env.dryRun o >>= fun o =>
    clean_imagesE rs env.dryRun o >>= fun o =>
    clean_volumesE rs project_names env.dryRun o >>= fun o =>
    clean_networksE rs project_names env.dryRun o >>= fun o =>
    clean_compose_projectsE project_names [env.basePath, env.runtimePath]
      env.dryRun o >>= fun o =>
    pure (if !env.dryRun then (print_report ["juno", "helios"] env.size
      (clean_dangling_images env.dryRun env.promptAnswer
        (clean_leftover_images_by_pattern env.dryRun o))).1
      else clean_dangling_images env.dryRun env.promptAnswer
        (clean_leftover_images_by_pattern env.dryRun o))) = _
  rw [foldlM_ok _ (fun o p => runCommand o env.dryRun
      (.composeDown p [env.basePath, env.runtimePath] false))
    (fun o p => runCommandE_ok o env.dryRun
      (.composeDown p [env.basePath, env.runtimePath] false)) project_names o]
  show (clean_containersE rs env.dryRun _ >>= fun o =>
    clean_imagesE rs env.dryRun o >>= fun o =>
    clean_volumesE rs project_names env.dryRun o >>= fun o =>
    clean_networksE rs project_names env.dryRun o >>= fun o =>
    clean_compose_projectsE project_names [env.basePath, env.runtimePath]
      env.dryRun o >>= fun o => pure _) = _
  rw [clean_containersE_ok]
  show (clean_imagesE rs env.dryRun _ >>= fun o =>
    clean_volumesE rs project_names env.dryRun o >>= fun o =>
    clean_networksE rs project_names env.dryRun o >>= fun o =>
    clean_compose_projectsE project_names [env.basePath, env.runtimePath]
      env.dryRun o >>= fun o => pure _) = _
  rw [clean_imagesE_ok]
  show (clean_volumesE rs project_names env.dryRun _ >>= fun o =>
    clean_networksE rs project_names env.dryRun o >>= fun o =>
    clean_compose_projectsE project_names [env.basePath, env.runtimePath]
      env.dryRun o >>= fun o => pure _) = _
  rw [clean_volumesE_ok]
  show (clean_networksE rs project_names env.dryRun _ >>= fun o =>
    clean_compose_projectsE project_names [env.basePath, env.runtimePath]
      env.dryRun o >>= fun o => pure _) = _
  rw [clean_networksE_ok]
  show (clean_compose_projectsE project_names [env.basePath, env.runtimePath]
    env.dryRun _ >>= fun o => pure _) = _
  rw [clean_compose_projectsE_ok]
  rfl

/-- C3 counterexample: both manifest files exist and parse successfully (to
the empty mapping `{}`), yet `main` exits with code 1 — the fatal condition
in the code is Python falsiness of both parse results, not failure to
parse. -/
theorem main_exit_counterexample :
    parse_compose_file (.parsed (.dict [])) = .dict [] ∧
    mainE { baseFile := .parsed (.dict []), runtimeFile := .parsed (.dict []),
            basePath := "docker-compose.yml",
            runtimePath := "docker-compose.runtime.yml",
            config := fun _ => ⟨0, .ok .null⟩, daemon := ⟨[], [], [], []⟩,
            size := fun _ => "0B", promptAnswer := none, dryRun := false } =
      .ok (1, initOutcome ⟨[], [], [], []⟩) :=
  ⟨rfl, rfl⟩

/-- C3 amended: the sweep exits nonzero (code 1) precisely when both
manifest parse results are falsy — absent, unparseable, an empty document,
or an empty mapping — and in that case performs zero daemon calls; in every
other case, provided each truthy config (independent or merged) is a
mapping whose `services` value is a mapping declaring only string-valued
identifiers, the sweep completes every remaining step — tolerating daemon
unavailability, nonzero exits and leftovers throughout — and returns exit
code 0. -/
theorem main_exit_code (env : MainEnv)
    (hb : (parse_compose_file env.baseFile).truthy = true →
      (parse_compose_file env.baseFile).extractable = true ∧
      (parse_compose_file env.baseFile).strIdents = true)
    (hr : (parse_compose_file env.runtimeFile).truthy = true →
      (parse_compose_file env.runtimeFile).extractable = true ∧
      (parse_compose_file env.runtimeFile).strIdents = true)
    (hm : ∀ p ∈ project_names,
      (get_merged_compose_config (env.baseFile ≠ .absent)
        (env.runtimeFile ≠ .absent) env.config env.basePath env.runtimePath
        p).1.truthy = true →
      (get_merged_compose_config (env.baseFile ≠ .absent)
        (env.runtimeFile ≠ .absent) env.config env.basePath env.runtimePath
        p).1.extractable = true ∧
      (get_merged_compose_config (env.baseFile ≠ .absent)
        (env.runtimeFile ≠ .absent) env.config env.basePath env.runtimePath
        p).1.strIdents = true) :
    ((parse_compose_file env.baseFile).truthy = false →
      (parse_compose_file env.runtimeFile).truthy = false →
      mainE env = .ok (1, initOutcome env.daemon)) ∧
    (((parse_compose_file env.baseFile).truthy = true ∨
      (parse_compose_file env.runtimeFile).truthy = true) →
      ∃ o : Outcome, mainE env = .ok (0, o)) := by
  constructor
  · intro h1 h2
    simp [mainE, h1, h2]
  · intro hor
    have hcond : (!(parse_compose_file env.baseFile).truthy &&
        !(parse_compose_file env.runtimeFile).truthy) = false := by
      rcases hor with h | h <;> simp [h]
    have hinit : initExtractor.strIdents := by
      refine ⟨?_, ?_, ?_, ?_⟩ <;> exact fun x hx => absurd hx (List.not_mem_nil x)
    have hall := extract_all_ok hinit hb hr
    rcases hre : extract_all initExtractor (parse_compose_file env.baseFile)
      (parse_compose_file env.runtimeFile) with ⟨st0, err⟩
    rw [hre] at hall
    obtain ⟨hnone, hstr0⟩ := hall
    cases err with
    | some e => simp at hnone
    | none =>
      obtain ⟨st1, o1, hmerge, hstr1⟩ := mergedExtract_fold_ok env project_names
        st0 (initOutcome env.daemon) hstr0 hm
      have hme : mergedExtract env st0 (initOutcome env.daemon) =
          .ok (st1, o1) := hmerge
      obtain ⟨cs, hcs⟩ := idStrings_ok hstr1.1
      obtain ⟨is, his⟩ := idStrings_ok hstr1.2.1
      obtain ⟨vs, hvs⟩ := idStrings_ok hstr1.2.2.1
      obtain ⟨ns, hns⟩ := idStrings_ok hstr1.2.2.2
      refine ⟨mainTeardown env ⟨cs, is, vs, ns⟩ o1, ?_⟩
      simp only [mainE, hcond, Bool.false_eq_true, if_false, hre, hme, hcs,
        his, hvs, hns, mainTeardownE_ok]
      rfl

/-- Witness for the amended C3 theorem: a concrete environment with a
parsable base manifest, a missing overlay, and a failing daemon completes
the sweep and returns exit code 0. -/
theorem main_exit_code_witness :
    ∃ o : Outcome, mainE
      { baseFile := .parsed (.dict [("services", .dict [("app", .dict
          [("container_name", .str "app1"), ("image", .str "repo/app:1.0")])]),
          ("volumes", .dict [("data", .null)])]),
        runtimeFile := .absent, basePath := "b.yml", runtimePath := "r.yml",
        config := fun _ => ⟨1, .ok .null⟩, daemon := ⟨[], [], [], []⟩,
        size := fun _ => "0B", promptAnswer := none, dryRun := false } =
      .ok (0, o) :=
  (main_exit_code
    { baseFile := .parsed (.dict [("services", .dict [("app", .dict
        [("container_name", .str "app1"), ("image", .str "repo/app:1.0")])]),
        ("volumes", .dict [("data", .null)])]),
      runtimeFile := .absent, basePath := "b.yml", runtimePath := "r.yml",
      config := fun _ => ⟨1, .ok .null⟩, daemon := ⟨[], [], [], []⟩,
      size := fun _ => "0B", promptAnswer := none, dryRun := false }
    (by decide) (by decide) (by decide)).2 (Or.inl (by decide))

/-! ## C9: size parsing and formatting round-trip -/

/-- C9: `parse_size_string` maps `"0B"` to `0` and `"1.5GB"` to
`1.5 × 1024³` bytes, `format_bytes` maps `1536` bytes to `"1.50KB"`, and the
two functions round-trip on representative values at every 1024-base unit
B/KB/MB/GB/TB. -/
theorem size_roundtrip :
    (parse_size_string "0B").toRat = 0 ∧
    (parse_size_string "1.5GB").toRat = (3 / 2) * 1024 ^ 3 ∧
    format_bytes 1536 = "1.50KB" ∧
    (parse_size_string (format_bytes 1536)).toRat = 1536 ∧
    format_bytes 0 = "0B" ∧ (parse_size_string (format_bytes 0)).toRat = 0 ∧
    format_bytes 100 = "100.00B" ∧
    (parse_size_string (format_bytes 100)).toRat = 100 ∧
    format_bytes ⟨5 * 1024 ^ 2, 1⟩ = "5.00MB" ∧
    (parse_size_string (format_bytes ⟨5 * 1024 ^ 2, 1⟩)).toRat = 5 * 1024 ^ 2 ∧
    format_bytes ⟨3 * 1024 ^ 3, 2⟩ = "1.50GB" ∧
    (parse_size_string (format_bytes ⟨3 * 1024 ^ 3, 2⟩)).toRat = (3 / 2) * 1024 ^ 3 ∧
    format_bytes ⟨2 * 1024 ^ 4, 1⟩ = "2.00TB" ∧
    (parse_size_string (format_bytes ⟨2 * 1024 ^ 4, 1⟩)).toRat = 2 * 1024 ^ 4 := by
  refine ⟨?_, ?_, by decide, ?_, by decide, ?_, by decide, ?_, by decide, ?_,
    by decide, ?_, by decide, ?_⟩
  · rw [(by decide : parse_size_string "0B" = ⟨0, 1⟩)]
    norm_num [PyFloat.toRat]
  · rw [(by decide : parse_size_string "1.5GB" = ⟨16106127360, 10⟩)]
    norm_num [PyFloat.toRat]
  · rw [(by decide : parse_size_string (format_bytes 1536) = ⟨153600, 100⟩)]
    norm_num [PyFloat.toRat]
  · rw [(by decide : parse_size_string (format_bytes 0) = ⟨0, 1⟩)]
    norm_num [PyFloat.toRat]
  · rw [(by decide : parse_size_string (format_bytes 100) = ⟨10000, 100⟩)]
    norm_num [PyFloat.toRat]
  · rw [(by decide :
      parse_size_string (format_bytes ⟨5 * 1024 ^ 2, 1⟩) = ⟨524288000, 100⟩)]
    norm_num [PyFloat.toRat]
  · rw [(by decide :
      parse_size_string (format_bytes ⟨3 * 1024 ^ 3, 2⟩) = ⟨161061273600, 100⟩)]
    norm_num [PyFloat.toRat]
  · rw [(by decide :
      parse_size_string (format_bytes ⟨2 * 1024 ^ 4, 1⟩) = ⟨219902325555200, 100⟩)]
    norm_num [PyFloat.toRat]

end JunoCleanup
